import Mathlib

/-!
Verification development for the codmon2slack repository.

The repository polls the Codmon childcare service for timeline records and
relays them to two sinks: a filesystem archive (`codmon_archiver.py`) and a
Slack channel (`main.py`).  This file gives a shallow embedding of the parts
of both scripts that the verified properties are about: the date-key
derivation, the archive directory layout, the paginated timeline walk with
its resume/loop-detection stops, the per-item archive writes (info.json,
attachments, the `done` marker), the Slack dedup scan over channel history,
the HTML-to-mrkdwn conversion, the message composition with the embedded
`(ID: ...)` token, and the credential checks of both entry points.

Python `dict.get` of string fields is modelled with `Option String`; Python
truthiness of such a field (absent key or empty string is falsy) with
`truthyS`.  Network and filesystem effects are modelled with explicit state
and oracles: HTTP fetches are functions given as parameters, the filesystem
is an association list of paths.  `datetime.strptime` for the two formats
used by the code (`%Y-%m-%d` and the full-width `%Y年%m月%d日`) is embedded
following CPython's `_strptime` regexes: a four-digit year, a one-or-two
digit month `1[0-2]|0[1-9]|[1-9]`, a one-or-two digit day
`3[01]|[12]\d|0[1-9]|[1-9]`, full consumption of the input, and calendar
validity of the resulting date (these regexes are deterministic here because
each two-digit alternative is followed by a non-digit literal, so the
greedy-first reading below agrees with the backtracking engine).
`strftime('%Y')` on the target platform (glibc) does not zero-pad, while
`'%m'` does; the formatting below follows that.
-/

namespace Codmon

/-- Python truthiness of an optional string field: `item.get(k)` is falsy
when the key is absent (`None`) or the value is the empty string. -/
def truthyS : Option String → Bool
  | none => false
  | some s => !(s == "")

/-- Python `s.split(' ')[0]`: the text before the first space character. -/
def firstWord (s : String) : String :=
  String.mk (s.data.takeWhile (fun c => c != ' '))

/-- Value of a decimal digit character. -/
def digVal (c : Char) : Nat := c.toNat - '0'.toNat

/-- strptime `%Y`: exactly four decimal digits (CPython regex `\d\d\d\d`). -/
def parseY4 : List Char → Option (Nat × List Char)
  | a :: b :: c :: d :: rest =>
    if a.isDigit && b.isDigit && c.isDigit && d.isDigit then
      some (digVal a * 1000 + digVal b * 100 + digVal c * 10 + digVal d, rest)
    else none
  | _ => none

/-- strptime `%m`: CPython regex `1[0-2]|0[1-9]|[1-9]`, two-digit
alternatives first. -/
def parseMo : List Char → Option (Nat × List Char)
  | a :: b :: rest =>
    if a = '1' ∧ (b = '0' ∨ b = '1' ∨ b = '2') then some (10 + digVal b, rest)
    else if a = '0' ∧ b.isDigit ∧ b ≠ '0' then some (digVal b, rest)
    else if a.isDigit ∧ a ≠ '0' then some (digVal a, b :: rest)
    else none
  | [a] => if a.isDigit ∧ a ≠ '0' then some (digVal a, []) else none
  | [] => none

/-- strptime `%d`: CPython regex `3[01]|[12]\d|0[1-9]|[1-9]`, two-digit
alternatives first. -/
def parseDay : List Char → Option (Nat × List Char)
  | a :: b :: rest =>
    if a = '3' ∧ (b = '0' ∨ b = '1') then some (30 + digVal b, rest)
    else if (a = '1' ∨ a = '2') ∧ b.isDigit then some (digVal a * 10 + digVal b, rest)
    else if a = '0' ∧ b.isDigit ∧ b ≠ '0' then some (digVal b, rest)
    else if a.isDigit ∧ a ≠ '0' then some (digVal a, b :: rest)
    else none
  | [a] => if a.isDigit ∧ a ≠ '0' then some (digVal a, []) else none
  | [] => none

/-- Gregorian leap year, as in Python's `datetime`. -/
def isLeap (y : Nat) : Bool := y % 4 = 0 && (y % 100 ≠ 0 || y % 400 = 0)

/-- Days in a month, as in Python's `datetime`. -/
def daysInMonth (y m : Nat) : Nat :=
  if m = 2 then (if isLeap y then 29 else 28)
  else if m = 4 ∨ m = 6 ∨ m = 9 ∨ m = 11 then 30 else 31

/-- strptime for a date pattern `%Y s1 %m s2 %d trail` with full consumption
of the input and `datetime` validity (year at least 1, day within the
month).  `trail = []` gives `'%Y-%m-%d'` with `s1 = s2 = '-'`;
`trail = ['日']` with the full-width separators gives `'%Y年%m月%d日'`. -/
def parseDateSep (s1 s2 : Char) (trail : List Char) (cs : List Char) : Option (Nat × Nat) :=
  match parseY4 cs with
  | none => none
  | some (y, r1) =>
    match r1 with
    | [] => none
    | c1 :: r2 =>
      if c1 = s1 then
        match parseMo r2 with
        | none => none
        | some (m, r3) =>
          match r3 with
          | [] => none
          | c2 :: r4 =>
            if c2 = s2 then
              match parseDay r4 with
              | none => none
              | some (d, r5) =>
                if r5 = trail ∧ 1 ≤ y ∧ d ≤ daysInMonth y m then some (y, m) else none
            else none
      else none

/-- `dt.strftime('%Y')` on the target platform (glibc): plain decimal,
no zero padding. -/
def fmtY (y : Nat) : String := toString y

/-- `dt.strftime('%m')`: two digits, zero padded. -/
def fmt2 (n : Nat) : String := if n < 10 then "0" ++ toString n else toString n

/-- The date-parsing step of `process_service` (codmon_archiver.py lines
477-489): if the resolved date string contains `'年'` it is parsed as
`'%Y年%m月%d日'`, otherwise the text before the first space is parsed as
`'%Y-%m-%d'`; on success the key is `(strftime('%Y'), strftime('%m'))`,
on `ValueError` it is `("unknown", "unknown")`. -/
def toYearMonth (display_date : String) : String × String :=
  if display_date.data.contains '年' then
    match parseDateSep '年' '月' ['日'] display_date.data with
    | some (y, m) => (fmtY y, fmt2 m)
    | none => ("unknown", "unknown")
  else
    match parseDateSep '-' '-' [] (firstWord display_date).data with
    | some (y, m) => (fmtY y, fmt2 m)
    | none => ("unknown", "unknown")

/-- The date parsing of `process_contact_book` (codmon_archiver.py lines
314-320 and 363-369): strict `'%Y-%m-%d'`, no space-splitting and no
full-width branch. -/
def contactYearMonth (display_date : String) : String × String :=
  match parseDateSep '-' '-' [] display_date.data with
  | some (y, m) => (fmtY y, fmt2 m)
  | none => ("unknown", "unknown")

/-- One photo entry of a timeline record.  The archiver indexes
`photo['url']` and `photo['id']` unconditionally, so both are taken as
present; `main.py` additionally reads `photo.get('caption')`. -/
structure Photo where
  url : String
  id : String
  caption : Option String := none
deriving Repr, DecidableEq

/-- One vendor timeline record, with the raw-dict fields the scripts read.
Absent keys are `none`. -/
structure Item where
  id : String
  display_date : Option String := none
  start_date : Option String := none
  delivery_start_datetime : Option String := none
  update_datetime : Option String := none
  confirm_datetime : Option String := none
  timeline_kind : Option String := none
  title : Option String := none
  overview : Option String := none
  content : Option String := none
  file_url : Option String := none
  photos : List Photo := []
deriving Repr, DecidableEq

/-- The fallback chain of `process_service` (codmon_archiver.py lines
463-475): `display_date`, then `start_date`, then the date part of
`delivery_start_datetime`, `update_datetime`, `confirm_datetime`, and
finally the literal `'unknown_date'`. -/
def resolveDisplayDate (it : Item) : String :=
  if truthyS it.display_date then it.display_date.getD ""
  else if truthyS it.start_date then it.start_date.getD ""
  else if truthyS it.delivery_start_datetime then firstWord (it.delivery_start_datetime.getD "")
  else if truthyS it.update_datetime then firstWord (it.update_datetime.getD "")
  else if truthyS it.confirm_datetime then firstWord (it.confirm_datetime.getD "")
  else "unknown_date"

/-- The `(year, month)` archive key of a timeline record. -/
def dateKey (it : Item) : String × String := toYearMonth (resolveDisplayDate it)

/-- A character removed by `sanitize_filename` (the class `[\\/*?:"<>|]`). -/
def forbiddenChar (c : Char) : Bool :=
  c == '\\' || c == '/' || c == '*' || c == '?' || c == ':' ||
  c == '"' || c == '<' || c == '>' || c == '|'

/-- `sanitize_filename` (codmon_archiver.py lines 254-256): delete every
character of the class `[\\/*?:"<>|]`. -/
def sanitize_filename (s : String) : String :=
  String.mk (s.data.filter (fun c => !(forbiddenChar c)))

/-- The archive root directory name. -/
def DATA_DIR : String := "codomon_data"

/-- `sanitize_filename(item.get('timeline_kind', 'etc'))`. -/
def timelineKindOf (it : Item) : String :=
  sanitize_filename (it.timeline_kind.getD "etc")

/-- The archive directory of a timeline record:
`codomon_data/<service>/<year>/<month>/<kind>_<id>` (codmon_archiver.py
lines 491-494). -/
def itemDirPath (serviceName : String) (it : Item) : String :=
  DATA_DIR ++ "/" ++ serviceName ++ "/" ++ (dateKey it).1 ++ "/" ++ (dateKey it).2 ++
    "/" ++ timelineKindOf it ++ "_" ++ it.id

/-! ### Filesystem model and the archive flow of `codmon_archiver.py` -/

/-- Observable archive events emitted while an item is processed. -/
inductive Ev where
  | mkdirp (d : String)
  | writeInfo (d : String)
  | dlWrite (p : String)
  | dlSkip (p : String)
  | dlFail (p : String)
  | touchDone (d : String)
deriving Repr, DecidableEq

/-- Local filesystem state: existing directories and files with sizes
(`done` markers have size 0). -/
structure FS where
  dirs : List String
  files : List (String × Nat)
deriving Repr, DecidableEq

/-- `item_dir.exists()`. -/
def FS.hasDirB (fs : FS) (d : String) : Bool := fs.dirs.contains d

/-- `os.path.exists(p)` for a file path. -/
def FS.hasFileB (fs : FS) (p : String) : Bool := fs.files.any (fun e => e.1 == p)

/-- `os.path.getsize(p)` (0 when the file does not exist). -/
def FS.fileSize (fs : FS) (p : String) : Nat :=
  (((fs.files.find? (fun e => e.1 == p)).map Prod.snd).getD 0)

/-- `item_dir.mkdir(parents=True, exist_ok=True)` at the granularity of the
item directory. -/
def FS.mkdirp (fs : FS) (d : String) : FS :=
  if fs.hasDirB d then fs else ⟨d :: fs.dirs, fs.files⟩

/-- Create or overwrite a file of the given size. -/
def FS.writeF (fs : FS) (p : String) (sz : Nat) : FS := ⟨fs.dirs, (p, sz) :: fs.files⟩

/-- `Path(p).touch()`: create a zero-byte file when absent, keep an existing
file unchanged. -/
def FS.touchF (fs : FS) (p : String) : FS :=
  if fs.hasFileB p then fs else ⟨fs.dirs, (p, 0) :: fs.files⟩

/-- Outcome of one HTTP file download, keyed by URL: success, a non-200
status, or an exception raised inside `download_file` (which its
`try/except` catches). -/
inductive DlResult where
  | ok
  | httpFail
  | exc
deriving Repr, DecidableEq

/-- `download_file` (codmon_archiver.py lines 225-252): skip an existing
non-empty file unless `force`; otherwise attempt the download, writing the
file and returning `True` on status 200, and returning `False` (no
completed file) on a non-200 status or a caught exception. -/
def download_file (dl : String → DlResult) (force : Bool) (fs : FS)
    (url savePath : String) : FS × Bool × List Ev :=
  if !force && fs.hasFileB savePath && (fs.fileSize savePath != 0) then
    (fs, true, [Ev.dlSkip savePath])
  else
    match dl url with
    | DlResult.ok => (fs.writeF savePath 1, true, [Ev.dlWrite savePath])
    | DlResult.httpFail => (fs, false, [Ev.dlFail savePath])
    | DlResult.exc => (fs, false, [Ev.dlFail savePath])

/-- `l1` is a prefix of `l2` (character lists). -/
def startsWithL : List Char → List Char → Bool
  | [], _ => true
  | _ :: _, [] => false
  | a :: as, b :: bs => a == b && startsWithL as bs

/-- Python `pat in s` (substring containment) on character lists. -/
def hasSubL (pat : List Char) : List Char → Bool
  | [] => startsWithL pat []
  | c :: rest => startsWithL pat (c :: rest) || hasSubL pat rest

/-- The extension part of `os.path.splitext` applied to the basename: the
suffix from the last `'.'`, unless every character before that dot is also
a dot (then there is no extension). -/
def extOfBase (base : List Char) : List Char :=
  let revAfter := base.reverse.takeWhile (fun c => c != '.')
  if revAfter.length = base.length then []
  else
    let pre := base.take (base.length - revAfter.length - 1)
    if pre.any (fun c => c != '.') then '.' :: revAfter.reverse else []

/-- `os.path.splitext(p)[1]`. -/
def splitextExt (p : String) : String :=
  String.mk (extOfBase ((p.data.reverse.takeWhile (fun c => c != '/')).reverse))

/-- CLI flags of the archiver that the walk consults. -/
structure Args where
  full_scan : Bool
  no_assets : Bool
  force : Bool
deriving Repr, DecidableEq

/-- The attachment filename (codmon_archiver.py lines 519-524):
`attachment<ext>` with the extension sniffed by `splitext`, defaulting to
`.pdf`. -/
def attachmentName (file_url : String) : String :=
  let e := splitextExt file_url
  "attachment" ++ (if e == "" then ".pdf" else e)

/-- The photo filename (codmon_archiver.py lines 528-538):
`photo_<id><ext>` with `.png` when the URL contains `.png`, else `.jpg`. -/
def photoName (ph : Photo) : String :=
  "photo_" ++ ph.id ++ (if hasSubL ".png".data ph.url.data then ".png" else ".jpg")

/-- The photo download loop of one item. -/
def downloadPhotos (dl : String → DlResult) (force : Bool) (dir : String) :
    List Photo → FS → FS × List Ev
  | [], fs => (fs, [])
  | ph :: rest, fs =>
    let r := download_file dl force fs ph.url (dir ++ "/" ++ photoName ph)
    let r2 := downloadPhotos dl force dir rest r.1
    (r2.1, r.2.2 ++ r2.2)

/-- The attachment section of one item (codmon_archiver.py lines 516-539):
the `file_url` document if truthy, then every photo. -/
def processAssets (args : Args) (dl : String → DlResult) (dir : String)
    (it : Item) (fs : FS) : FS × List Ev :=
  let s1 :=
    match it.file_url with
    | some u =>
      if u == "" then (fs, ([] : List Ev))
      else
        let r := download_file dl args.force fs u (dir ++ "/" ++ attachmentName u)
        (r.1, r.2.2)
    | none => (fs, ([] : List Ev))
  let s2 := downloadPhotos dl args.force dir it.photos s1.1
  (s2.1, s1.2 ++ s2.2)

/-- The body of the per-item loop of `process_service` (codmon_archiver.py
lines 455-545): `none` models the early `return` taken when the item's
directory exists with a `done` marker and neither `--full-scan` nor
`--force` is set; otherwise the directory is created, `info.json` written
when forced or absent, attachments downloaded best-effort unless
`--no-assets`, and the zero-byte `done` marker touched last. -/
def processOneItem (args : Args) (dl : String → DlResult) (serviceName : String)
    (fs : FS) (it : Item) : Option (FS × List Ev) :=
  let dir := itemDirPath serviceName it
  if fs.hasDirB dir && fs.hasFileB (dir ++ "/done") && !args.full_scan && !args.force then
    none
  else
    let fs1 := fs.mkdirp dir
    let s2 :=
      if args.force || !fs1.hasFileB (dir ++ "/info.json") then
        (fs1.writeF (dir ++ "/info.json") 1, [Ev.writeInfo dir])
      else (fs1, ([] : List Ev))
    let s3 := if args.no_assets then (s2.1, ([] : List Ev)) else processAssets args dl dir it s2.1
    let fs4 := s3.1.touchF (dir ++ "/done")
    some (fs4, Ev.mkdirp dir :: s2.2 ++ s3.2 ++ [Ev.touchDone dir])

/-- Outcome of the item loop over one fetched page: either the early
`return` fired (walk over), or the page completed with the updated
run-scoped seen-set and the count of ids first seen on this page. -/
inductive PageOutcome where
  | early (fs : FS) (tr : List Ev)
  | completed (fs : FS) (seen : List String) (newCount : Nat) (tr : List Ev)
deriving Repr, DecidableEq

/-- The `for item in items` loop of `process_service`: each id is added to
the run-scoped seen-set (counting ids new to this run) before the item is
processed. -/
def processItems (args : Args) (dl : String → DlResult) (serviceName : String) :
    List Item → FS → List String → Nat → List Ev → PageOutcome
  | [], fs, seen, cnt, tr => PageOutcome.completed fs seen cnt tr
  | it :: rest, fs, seen, cnt, tr =>
    let su := if seen.contains it.id then (seen, cnt) else (it.id :: seen, cnt + 1)
    match processOneItem args dl serviceName fs it with
    | none => PageOutcome.early fs tr
    | some (fs2, evs) => processItems args dl serviceName rest fs2 su.1 su.2 (tr ++ evs)

/-- Why the page walk of one facility stopped.  `maxPages` and
`loopDetected` are the two stops the code logs with `logger.warning`;
`noData` and `doneReached` are logged at info level. -/
inductive StopReason where
  | maxPages
  | noData
  | doneReached
  | loopDetected
deriving Repr, DecidableEq

/-- Result of the page walk: final filesystem, number of pages fetched,
stop reason, and the archive event trace. -/
structure WalkResult where
  fs : FS
  fetches : Nat
  reason : StopReason
  tr : List Ev
deriving Repr, DecidableEq

/-- The page ceiling (codmon_archiver.py line 429). -/
def MAX_PAGES : Nat := 3000

/-- The `while has_next` page loop of `process_service` (codmon_archiver.py
lines 427-554).  The loop breaks before fetching once `page > MAX_PAGES`,
so the fuel `MAX_PAGES + 1 - page` is an exact reformulation of that
counter; fetching a missing or empty page ends the walk, the early resume
`return` propagates, and a non-empty page whose records were all already
seen in this run stops the walk with the loop warning. -/
def walkAux (fetch : Nat → Option (List Item)) (args : Args) (dl : String → DlResult)
    (serviceName : String) : Nat → Nat → List String → FS → List Ev → WalkResult
  | 0, _, _, fs, tr => ⟨fs, 0, StopReason.maxPages, tr⟩
  | fuel + 1, page, seen, fs, tr =>
    match fetch page with
    | none => ⟨fs, 1, StopReason.noData, tr⟩
    | some [] => ⟨fs, 1, StopReason.noData, tr⟩
    | some (it :: items) =>
      match processItems args dl serviceName (it :: items) fs seen 0 tr with
      | PageOutcome.early fs2 tr2 => ⟨fs2, 1, StopReason.doneReached, tr2⟩
      | PageOutcome.completed fs2 seen2 newCount tr2 =>
        if newCount = 0 then ⟨fs2, 1, StopReason.loopDetected, tr2⟩
        else
          let r := walkAux fetch args dl serviceName fuel (page + 1) seen2 fs2 tr2
          ⟨r.fs, r.fetches + 1, r.reason, r.tr⟩

/-- The timeline part of `process_service` for one facility: the page walk
starting at page 1 with an empty run-scoped seen-set. -/
def processServiceWalk (fetch : Nat → Option (List Item)) (args : Args)
    (dl : String → DlResult) (serviceName : String) (fs : FS) : WalkResult :=
  walkAux fetch args dl serviceName MAX_PAGES 1 [] fs []

/-- One contact-book record (`process_contact_book` reads `display_date`
and `id`). -/
structure ContactItem where
  id : String
  display_date : Option String := none
deriving Repr, DecidableEq

/-- The contact-book archive directory
`codomon_data/<service>/<year>/<month>/<pre>_<id>` where `pre` is
`contact` or `contact_response`. -/
def contactDirPath (serviceName pre : String) (ci : ContactItem) : String :=
  let ym := contactYearMonth (ci.display_date.getD "")
  DATA_DIR ++ "/" ++ serviceName ++ "/" ++ ym.1 ++ "/" ++ ym.2 ++ "/" ++ pre ++ "_" ++ ci.id

/-- The per-item body of `process_contact_book` (codmon_archiver.py lines
308-346 and 357-388): skip items without a truthy `display_date`; skip
items whose directory exists with a `done` marker unless `--full-scan` or
`--force`; otherwise create the directory, write `info.json`
unconditionally and touch the zero-byte `done` marker last. -/
def processContactItem (args : Args) (serviceName pre : String) (fs : FS)
    (ci : ContactItem) : Option (FS × List Ev) :=
  if !(truthyS ci.display_date) then none
  else
    let dir := contactDirPath serviceName pre ci
    if fs.hasDirB dir && fs.hasFileB (dir ++ "/done") && !args.full_scan && !args.force then
      none
    else
      let fs1 := fs.mkdirp dir
      let fs2 := fs1.writeF (dir ++ "/info.json") 1
      let fs3 := fs2.touchF (dir ++ "/done")
      some (fs3, [Ev.mkdirp dir, Ev.writeInfo dir, Ev.touchDone dir])

/-! ### The Slack relay of `main.py` -/

/-- Python `\s` on the ASCII range (the strings involved here are ASCII
and Japanese text without exotic whitespace). -/
def pySpace (c : Char) : Bool :=
  c == ' ' || c == '\t' || c == '\n' || c == '\r' || c == '\x0b' || c == '\x0c'

/-- An attempt of the regex `\(ID:\s*(\d+)\)` anchored at the head of the
list: the literal `(ID:`, greedily skipped whitespace, a non-empty maximal
digit run, a closing parenthesis; the group is the digit run.  (Shorter
whitespace or digit runs cannot rescue a failed attempt: a shorter
whitespace run ends in whitespace where a digit is required, a shorter
digit run ends in a digit where `)` is required, so the greedy reading
agrees with the backtracking engine.) -/
def matchIdAt : List Char → Option String
  | a :: b :: c :: d :: rest =>
    if a = '(' ∧ b = 'I' ∧ c = 'D' ∧ d = ':' then
      let sp := rest.dropWhile pySpace
      let ds := sp.takeWhile Char.isDigit
      match sp.dropWhile Char.isDigit with
      | e :: _ => if e = ')' ∧ ds ≠ [] then some (String.mk ds) else none
      | [] => none
    else none
  | _ => none

/-- `re.search(r'\(ID:\s*(\d+)\)', s)`: the group of the leftmost match. -/
def findIdToken : List Char → Option String
  | [] => none
  | c :: rest =>
    match matchIdAt (c :: rest) with
    | some d => some d
    | none => findIdToken rest

/-- One attached file of a Slack message: `some c` when the file has an
`initial_comment` whose `comment` text is `c` (an absent `comment` key
reads as `""`). -/
structure SlackFile where
  initial_comment : Option String := none
deriving Repr, DecidableEq

/-- One Slack channel message as `conversations_history` returns it. -/
structure Msg where
  text : String := ""
  files : List SlackFile := []
deriving Repr, DecidableEq

/-- Python `set.add` on the list model of the seen-id set. -/
def insertId (d : String) (s : List String) : List String :=
  if s.contains d then s else d :: s

/-- The file part of the scan: the first regex match of one attached
file's `initial_comment`, when present. -/
def scanFile (s : List String) (f : SlackFile) : List String :=
  match f.initial_comment with
  | some c =>
    match findIdToken c.data with
    | some d => insertId d s
    | none => s
  | none => s

/-- The per-message body of `fetch_seen_ids_from_slack` (main.py lines
79-93): the first regex match of the message text, then the first match of
each attached file's `initial_comment`. -/
def scanMsg (s : List String) (m : Msg) : List String :=
  let s1 :=
    match findIdToken m.text.data with
    | some d => insertId d s
    | none => s
  m.files.foldl scanFile s1

/-- `fetch_seen_ids_from_slack` (main.py lines 52-103): scan the most
recent 100 channel messages (`conversations_history(limit=100)`; `history`
lists the channel newest first) for embedded `(ID: ...)` tokens. -/
def fetch_seen_ids_from_slack (history : List Msg) : List String :=
  (history.take 100).foldl scanMsg []

/-- Python `str.replace(pat, rep)` for non-empty `pat`, fuelled by the
input length (each step consumes at least one character, so the fuel never
runs out): replace each non-overlapping occurrence left to right. -/
def replaceAllF (pat rep : List Char) : Nat → List Char → List Char
  | 0, cs => cs
  | _ + 1, [] => []
  | fuel + 1, c :: rest =>
    if startsWithL pat (c :: rest) && !pat.isEmpty then
      rep ++ replaceAllF pat rep fuel ((c :: rest).drop pat.length)
    else c :: replaceAllF pat rep fuel rest

/-- Python `str.replace` on character lists. -/
def replaceAll (pat rep cs : List Char) : List Char := replaceAllF pat rep cs.length cs

/-- ASCII case-insensitive character equality (`re.IGNORECASE`). -/
def ciEq (a b : Char) : Bool := a.toLower == b.toLower

/-- Case-insensitive prefix test. -/
def startsWithCI : List Char → List Char → Bool
  | [], _ => true
  | _ :: _, [] => false
  | a :: as, b :: bs => ciEq a b && startsWithCI as bs

/-- Split at the earliest case-insensitive occurrence of `pat`: the text
before it and the text after it. -/
def splitAtCI (pat : List Char) : List Char → Option (List Char × List Char)
  | [] => if pat.isEmpty then some ([], []) else none
  | c :: rest =>
    if startsWithCI pat (c :: rest) then some ([], (c :: rest).drop pat.length)
    else
      match splitAtCI pat rest with
      | some (b, a) => some (c :: b, a)
      | none => none

/-- `re.sub('<t>(.*?)</t>', mark + group + mark, text, IGNORECASE|DOTALL)`
(main.py lines 325-333), fuelled by the input length: at the leftmost
opening tag the lazy group runs to the earliest closing tag, the pair is
rewritten to the mark on both sides of the group, and scanning resumes
after the match; an opening tag with no later closing tag matches
nothing. -/
def subTagF (openT closeT : List Char) (mark : Char) : Nat → List Char → List Char
  | 0, cs => cs
  | _ + 1, [] => []
  | fuel + 1, c :: rest =>
    if startsWithCI openT (c :: rest) then
      match splitAtCI closeT ((c :: rest).drop openT.length) with
      | some (content, after) =>
        mark :: content ++ mark :: subTagF openT closeT mark fuel after
      | none => c :: subTagF openT closeT mark fuel rest
    else c :: subTagF openT closeT mark fuel rest

/-- Tag-pair substitution on character lists. -/
def subTag (openT closeT : String) (mark : Char) (cs : List Char) : List Char :=
  subTagF openT.data closeT.data mark cs.length cs

/-- Find the earliest `'>'` not preceded by a newline and return the text
after it: the lazy `<.*?>` has no DOTALL flag, so its `.` cannot cross a
newline. -/
def findGtNoNl : List Char → Option (List Char)
  | [] => none
  | c :: rest =>
    if c == '>' then some rest
    else if c == '\n' then none
    else findGtNoNl rest

/-- `re.sub('<.*?>', '', text)` (main.py lines 338-340), fuelled by the
input length. -/
def stripTagsF : Nat → List Char → List Char
  | 0, cs => cs
  | _ + 1, [] => []
  | fuel + 1, c :: rest =>
    if c == '<' then
      match findGtNoNl rest with
      | some after => stripTagsF fuel after
      | none => c :: stripTagsF fuel rest
    else c :: stripTagsF fuel rest

/-- The part of a whitespace run after its last newline. -/
def afterLastNl (run : List Char) : List Char :=
  (run.reverse.takeWhile (fun c => c != '\n')).reverse

/-- `re.sub(r'\n\s*\n', '\n\n', text)` (main.py line 343), fuelled by the
input length: at a newline whose following whitespace run contains another
newline, the greedy `\s*` backtracks to the run's last newline, the whole
match becomes `"\n\n"`, and scanning resumes after that newline. -/
def collapseNlF : Nat → List Char → List Char
  | 0, cs => cs
  | _ + 1, [] => []
  | fuel + 1, c :: rest =>
    if c == '\n' then
      let run := rest.takeWhile pySpace
      if run.contains '\n' then
        '\n' :: '\n' :: collapseNlF fuel (afterLastNl run ++ rest.dropWhile pySpace)
      else c :: collapseNlF fuel rest
    else c :: collapseNlF fuel rest

/-- Python `str.strip()` on the whitespace these strings use. -/
def pyStrip (cs : List Char) : List Char :=
  ((cs.dropWhile pySpace).reverse.dropWhile pySpace).reverse

/-- `remove_html_tags` (main.py lines 314-345): break tags to newlines,
decoration tag pairs to Slack mrkdwn, `<li>` to a bullet, strip the
remaining tags, collapse repeated blank lines, and strip the ends. -/
def remove_html_tags (text : String) : String :=
  if text == "" then ""
  else
    let t := text.data
    let t := replaceAll "<br>".data "\n".data t
    let t := replaceAll "<br/>".data "\n".data t
    let t := replaceAll "<br />".data "\n".data t
    let t := replaceAll "</p>".data "\n".data t
    let t := replaceAll "</div>".data "\n".data t
    let t := subTag "<b>" "</b>" '*' t
    let t := subTag "<strong>" "</strong>" '*' t
    let t := subTag "<i>" "</i>" '_' t
    let t := subTag "<em>" "</em>" '_' t
    let t := subTag "<u>" "</u>" '_' t
    let t := subTag "<s>" "</s>" '~' t
    let t := subTag "<strike>" "</strike>" '~' t
    let t := replaceAll "<li>".data "• ".data t
    let t := stripTagsF t.length t
    let t := collapseNlF t.length t
    String.mk (pyStrip t)

/-- A Slack API call made by `process_timeline`: a `chat_postMessage` or a
`files_upload_v2` (filename, title, and the `initial_comment` actually
sent — `upload_file_to_slack` omits a falsy comment). -/
inductive SlackAction where
  | post (text : String)
  | upload (filename : String) (title : String) (comment : Option String)
deriving Repr, DecidableEq

/-- `upload_file_to_slack` (main.py lines 144-182): the `initial_comment`
parameter is attached only when truthy. -/
def uploadAction (filename title : String) (initial_comment : Option String) : SlackAction :=
  SlackAction.upload filename title
    (if truthyS initial_comment then initial_comment else none)

/-- The file-date prefix for activity photo filenames (main.py lines
397-405): keep only the digits of `delivery_start_datetime`; with at least
14 of them, `YYYYMMDD_HHMMSS_`, otherwise all digits followed by `_`;
empty when the field is falsy. -/
def fileDatePre (delivery : Option String) : String :=
  if truthyS delivery then
    let cd := (delivery.getD "").data.filter Char.isDigit
    if 14 ≤ cd.length then
      String.mk (cd.take 8) ++ "_" ++ String.mk ((cd.drop 8).take 6) ++ "_"
    else String.mk cd ++ "_"
  else ""

/-- The text posted for an `activities` record (main.py line 408). -/
def activityMessage (it : Item) : String :=
  (it.display_date.getD "") ++ "\n📸 *" ++ (it.title.getD "無題") ++ "*\n" ++
    (it.overview.getD "") ++ "\n\n(ID: " ++ it.id ++ ")"

/-- One photo of an `activities` record (main.py lines 411-438): a falsy
URL or a failed download uploads nothing; otherwise the photo is uploaded
under `codmon_<date>_<itemid>_<photoid>.jpg` with the caption, the empty
caption replaced by `"."`. -/
def photoUpload (dlc : String → Bool) (pre itemId : String) (ph : Photo) : List SlackAction :=
  let caption := if truthyS ph.caption then ph.caption.getD "" else "."
  if ph.url == "" then []
  else if dlc ph.url then
    let fn := "codmon_" ++ pre ++ itemId ++ "_" ++ ph.id ++ ".jpg"
    [uploadAction fn fn (some caption)]
  else []

/-- The Slack calls for one `activities` record: the text post, then each
photo upload.  `dlc` tells whether `download_content` succeeds for a
URL. -/
def activityActions (dlc : String → Bool) (it : Item) : List SlackAction :=
  SlackAction.post (activityMessage it) ::
    (it.photos.map (photoUpload dlc (fileDatePre it.delivery_start_datetime) it.id)).flatten

/-- The text composed for a `topics` record (main.py line 456). -/
def topicsMessage (it : Item) : String :=
  (it.display_date.getD "") ++ "\n📢 *" ++ (it.title.getD "無題") ++ "*\n\n" ++
    remove_html_tags (it.content.getD "") ++ "\n\n(ID: " ++ it.id ++ ")"

/-- `os.path.basename`. -/
def basenameS (p : String) : String :=
  String.mk ((p.data.reverse.takeWhile (fun c => c != '/')).reverse)

/-- Suffix test on character lists. -/
def endsWithL (suf cs : List Char) : Bool := startsWithL suf.reverse cs.reverse

/-- URL normalization for topic documents (main.py lines 459-469): a
root-relative URL is prefixed with the API host; otherwise any
`parents.codmon.com` in it is replaced by `ps-api.codmon.com` (the
`in`-guard before the replacement only affects logging). -/
def topicsFullUrl (u : String) : String :=
  if startsWithL "/".data u.data then "https://ps-api.codmon.com" ++ u
  else String.mk (replaceAll "parents.codmon.com".data "ps-api.codmon.com".data u.data)

/-- The Slack calls for one `topics` record (main.py lines 440-497): with a
truthy `file_url` and a successful download, the document upload carrying
the message as its comment, then — when the basename ends in `.pdf`
case-insensitively — one image upload per rendered page; with a failed
download, nothing at all; with no truthy `file_url`, the text post alone.
`pdfPages` tells how many page images `convert_pdf_to_images` yields for a
URL's content. -/
def topicsActions (dlc : String → Bool) (pdfPages : String → Nat) (it : Item) :
    List SlackAction :=
  let msg := topicsMessage it
  let title := it.title.getD "無題"
  match it.file_url with
  | some u =>
    if u == "" then [SlackAction.post msg]
    else
      let full := topicsFullUrl u
      if dlc full then
        let fn := basenameS u
        let pages :=
          if endsWithL ".pdf".data (fn.data.map Char.toLower) then
            (List.range (pdfPages full)).map (fun i =>
              uploadAction (fn ++ "_page_" ++ toString (i + 1) ++ ".jpg")
                (title ++ " (ページ " ++ toString (i + 1) ++ ")") (some "."))
          else []
        uploadAction fn title (some msg) :: pages
      else []
  | none => [SlackAction.post msg]

/-- The per-item dispatch of `process_timeline` (main.py lines 375-497):
an id already in the seen set is skipped, a `responses` record is skipped,
`activities` and `topics` records are rendered, and a record of any other
kind falls through the `if/elif` chain with no Slack call at all. -/
def itemEmit (seen : List String) (dlc : String → Bool) (pdfPages : String → Nat)
    (it : Item) : List SlackAction :=
  if seen.contains it.id then []
  else if it.timeline_kind == some "responses" then []
  else if it.timeline_kind == some "activities" then activityActions dlc it
  else if it.timeline_kind == some "topics" then topicsActions dlc pdfPages it
  else []

/-- `process_timeline` (main.py lines 347-503): read the seen-id set from
the channel history, then process the timeline items oldest first
(`reversed(items)`), emitting the Slack calls of each. -/
def process_timeline (history : List Msg) (dlc : String → Bool)
    (pdfPages : String → Nat) (items : List Item) : List SlackAction :=
  let seen := fetch_seen_ids_from_slack history
  (items.reverse.map (itemEmit seen dlc pdfPages)).flatten

/-! ### Credential gates and exit codes of the two entry points -/

/-- The environment variables both scripts read at import time. -/
structure Env where
  slack_bot_token : Option String := none
  slack_channel_id : Option String := none
  codmon_email : Option String := none
  codmon_password : Option String := none
deriving Repr, DecidableEq

/-- `login_codmon` reduced to its observable outcome: `false` (no session)
when either Codmon credential is falsy, otherwise the network oracle
decides whether the login POST returns 200. -/
def loginOk (env : Env) (net : Bool) : Bool :=
  truthyS env.codmon_email && truthyS env.codmon_password && net

/-- Exit code of the relay script `main.py` without `--test` (lines
548-584): `exit(1)` only when a Slack setting is missing; after that there
is no further `exit` call — in particular a failed or credential-less
Codmon login merely skips the `if session:` body and the script ends
normally with exit code 0. -/
def relayMainExit (env : Env) (net : Bool) : Nat :=
  if !(truthyS env.slack_bot_token) || !(truthyS env.slack_channel_id) then 1
  else if !(loginOk env net) then 0
  else 0

/-- Exit code of `main.py --test` (lines 513-546): missing Slack settings,
a failed Slack `auth_test`, or a failed Codmon login each `exit(1)`,
otherwise `exit(0)`. -/
def relayTestExit (env : Env) (slackAuthOk : Bool) (net : Bool) : Nat :=
  if !(truthyS env.slack_bot_token) || !(truthyS env.slack_channel_id) then 1
  else if !slackAuthOk then 1
  else if !(loginOk env net) then 1
  else 0

/-- Exit code of the archiver's `main` (codmon_archiver.py lines 556-603):
the function contains no `exit` call; `login_codmon` returning no session
(in particular on missing credentials) takes the plain `return`, so the
process ends normally with exit code 0 on every path. -/
def archiverMainExit (env : Env) (net : Bool) : Nat :=
  if !(loginOk env net) then 0
  else 0

/-! ### Derived notions used by the verified properties -/

/-- Two-digit zero-padded decimal digits, the `MM`/`DD` of a claim's
date shapes. -/
def pad2L (n : Nat) : List Char := [Nat.digitChar (n / 10 % 10), Nat.digitChar (n % 10)]

/-- Four-digit zero-padded decimal digits, the `YYYY` of a claim's date
shapes. -/
def pad4L (n : Nat) : List Char :=
  [Nat.digitChar (n / 1000 % 10), Nat.digitChar (n / 100 % 10),
   Nat.digitChar (n / 10 % 10), Nat.digitChar (n % 10)]

/-- The directory of a `touchDone` event. -/
def evTouchDir : Ev → Option String
  | Ev.touchDone d => some d
  | _ => none

/-- The `(url, save path)` pairs `process_service` attempts for an item's
attachments, in code order: the `file_url` document, then each photo. -/
def attachmentTargets (dir : String) (it : Item) : List (String × String) :=
  (match it.file_url with
   | some u => if u == "" then [] else [(u, dir ++ "/" ++ attachmentName u)]
   | none => []) ++
  it.photos.map (fun ph => (ph.url, dir ++ "/" ++ photoName ph))

/-- Every file path the processing of one item may create. -/
def itemWritePaths (dir : String) (it : Item) : List String :=
  (dir ++ "/info.json") :: (dir ++ "/done") :: (attachmentTargets dir it).map Prod.snd

/-- Separation of two timeline records in the archive tree: no write of
the second record's processing can create the first record's `done`
marker.  Numeric vendor ids and the fixed file-name shapes make this hold
for any two distinct real records; it is the aliasing-freedom the resume
argument needs. -/
def SepItems (sname : String) (a b : Item) : Prop :=
  ¬ (itemDirPath sname a ++ "/done") ∈ itemWritePaths (itemDirPath sname b) b

/-- The number of leading pages that fit entirely inside the first `n`
records of the flattened sequence (the page containing record `n + 1` is
the next one). -/
def pagesBefore : List (List Item) → Nat → Nat
  | [], _ => 0
  | pg :: rest, n => if pg.length ≤ n then pagesBefore rest (n - pg.length) + 1 else 0

/-- The literal dedup token appended to every relayed message. -/
def idToken (id : String) : String := "(ID: " ++ id ++ ")"

/-- The part of an activity message before the dedup token. -/
def activityMessagePre (it : Item) : String :=
  (it.display_date.getD "") ++ "\n📸 *" ++ (it.title.getD "無題") ++ "*\n" ++
    (it.overview.getD "") ++ "\n\n"

/-- The part of a topics message before the dedup token. -/
def topicsMessagePre (it : Item) : String :=
  (it.display_date.getD "") ++ "\n📢 *" ++ (it.title.getD "無題") ++ "*\n\n" ++
    remove_html_tags (it.content.getD "") ++ "\n\n"

/-- A concrete not-yet-archived record used to instantiate the resume
sample scenario. -/
def sampleNewItem : Item :=
  ⟨"8", some "2024-03-06", none, none, none, none, some "topics",
    none, none, none, none, []⟩

/-- A concrete already-archived record used to instantiate the resume
sample scenario. -/
def sampleDoneItem : Item :=
  ⟨"7", some "2024-03-05", none, none, none, none, some "topics",
    none, none, none, none, []⟩

/-- A sink holding exactly `sampleDoneItem`'s directory and its `done`
marker. -/
def sampleFS : FS :=
  ⟨[itemDirPath "svc" sampleDoneItem],
   [(itemDirPath "svc" sampleDoneItem ++ "/done", 0)]⟩

/-! ### C7: markup conversion -/

/-- C7: Markup conversion: `remove_html_tags` maps `<b>`/`<strong>` to
`*…*`, `<i>`/`<em>`/`<u>` to `_…_`, `<s>`/`<strike>` to `~…~`,
`<br>`/`</p>`/`</div>` to a newline, `<li>` to a bullet, strips all
remaining tags and collapses repeated blank lines; in particular
`"<b>Hi</b><br>there"` yields `"*Hi*\nthere"`, and malformed or unclosed
tags are stripped without raising (the function is total and the stray
open tag is simply removed). -/
theorem C7_markup_conversion :
    remove_html_tags "<b>Hi</b><br>there" = "*Hi*\nthere" ∧
    remove_html_tags "<strong>x</strong>" = "*x*" ∧
    remove_html_tags "a<br/>b<br />c" = "a\nb\nc" ∧
    remove_html_tags "<i>x</i><em>y</em><u>z</u>" = "_x__y__z_" ∧
    remove_html_tags "<s>x</s><strike>y</strike>" = "~x~~y~" ∧
    remove_html_tags "a</p>b</div>c" = "a\nb\nc" ∧
    remove_html_tags "<ul><li>one<li>two</ul>" = "• one• two" ∧
    remove_html_tags "x<span>y</span>z" = "xyz" ∧
    remove_html_tags "a\n\n\n\nb" = "a\n\nb" ∧
    remove_html_tags "<b>unclosed" = "unclosed" ∧
    remove_html_tags "<B>Hi</B>" = "*Hi*" := by
  refine ⟨?_, ?_, ?_, ?_, ?_, ?_, ?_, ?_, ?_, ?_, ?_⟩ <;> rfl

/-! ### C9: exit codes on missing credentials -/

/-- C9 counterexample: with both Codmon credentials absent, the archiver's
`main` ends normally (exit code 0, there being no `exit` call on that
path), and so does the non-test relay when only its Slack settings are
present — contradicting the claim that missing credentials always
terminate the process with exit code 1. -/
theorem C9_counterexample :
    archiverMainExit ⟨some "tok", some "chan", none, none⟩ true = 0 ∧
    relayMainExit ⟨some "tok", some "chan", none, none⟩ true = 0 ∧
    (0 : Nat) ≠ 1 := by
  refine ⟨rfl, rfl, by decide⟩

/-- C9 (amended): missing Slack credentials make the relay exit 1 in both
modes, and in `--test` mode missing Codmon credentials also exit 1; but
when only the Codmon credentials are missing, the archiver and the
non-test relay end normally with exit code 0. -/
theorem C9_exit_codes (env : Env) (authOk net : Bool)
    (hcm : truthyS env.codmon_email = false ∨ truthyS env.codmon_password = false) :
    archiverMainExit env net = 0 ∧
    ((truthyS env.slack_bot_token = false ∨ truthyS env.slack_channel_id = false) →
      relayMainExit env net = 1 ∧ relayTestExit env authOk net = 1) ∧
    (truthyS env.slack_bot_token = true → truthyS env.slack_channel_id = true →
      relayMainExit env net = 0) ∧
    (truthyS env.slack_bot_token = true → truthyS env.slack_channel_id = true →
      authOk = true → relayTestExit env authOk net = 1) := by
  have hlogin : loginOk env net = false := by
    rcases hcm with h | h <;> simp [loginOk, h]
  refine ⟨by simp [archiverMainExit, hlogin], ?_, ?_, ?_⟩
  · rintro (h | h) <;> constructor <;> simp [relayMainExit, relayTestExit, h]
  · intro h1 h2
    simp [relayMainExit, h1, h2, hlogin]
  · intro h1 h2 h3
    simp [relayTestExit, h1, h2, h3, hlogin]

/-- C9 witness: the amended exit-code theorem applied to an environment
with Slack settings present and Codmon credentials absent. -/
theorem C9_exit_codes_witness :
    archiverMainExit ⟨some "t", some "c", none, none⟩ true = 0 ∧
    ((truthyS (⟨some "t", some "c", none, none⟩ : Env).slack_bot_token = false ∨
        truthyS (⟨some "t", some "c", none, none⟩ : Env).slack_channel_id = false) →
      relayMainExit ⟨some "t", some "c", none, none⟩ true = 1 ∧
        relayTestExit ⟨some "t", some "c", none, none⟩ true true = 1) ∧
    (truthyS (⟨some "t", some "c", none, none⟩ : Env).slack_bot_token = true →
      truthyS (⟨some "t", some "c", none, none⟩ : Env).slack_channel_id = true →
      relayMainExit ⟨some "t", some "c", none, none⟩ true = 0) ∧
    (truthyS (⟨some "t", some "c", none, none⟩ : Env).slack_bot_token = true →
      truthyS (⟨some "t", some "c", none, none⟩ : Env).slack_channel_id = true →
      true = true → relayTestExit ⟨some "t", some "c", none, none⟩ true true = 1) :=
  C9_exit_codes ⟨some "t", some "c", none, none⟩ true true (Or.inl rfl)

/-! ### C10: only activities and topics are relayed -/

/-- C10: a timeline record whose kind is neither `activities` nor `topics`
produces no Slack call at all — in particular every `responses` record is
silently skipped even when its id is not in the seen set, and so is any
record of an unknown kind (it falls through the `if/elif` chain of
`process_timeline` with no action). -/
theorem C10_other_kinds_skipped (seen : List String) (dlc : String → Bool)
    (pdfPages : String → Nat) (history : List Msg) (it : Item)
    (h1 : it.timeline_kind ≠ some "activities")
    (h2 : it.timeline_kind ≠ some "topics") :
    itemEmit seen dlc pdfPages it = [] ∧
    process_timeline history dlc pdfPages [it] = [] := by
  have hemit : ∀ s : List String, itemEmit s dlc pdfPages it = [] := by
    intro s
    simp [itemEmit, h1, h2]
  exact ⟨hemit seen, by simp [process_timeline, hemit]⟩

/-- C10 witness: a `responses` record with an id absent from the (empty)
seen set is never posted. -/
theorem C10_other_kinds_skipped_witness :
    itemEmit [] (fun _ => true) (fun _ => 0) ⟨"9", none, none, none, none, none,
      some "responses", none, none, none, none, []⟩ = [] ∧
    process_timeline [] (fun _ => true) (fun _ => 0) [⟨"9", none, none, none, none, none,
      some "responses", none, none, none, none, []⟩] = [] :=
  C10_other_kinds_skipped [] (fun _ => true) (fun _ => 0) []
    ⟨"9", none, none, none, none, none, some "responses", none, none, none, none, []⟩
    (by decide) (by decide)

/-! ### C6: date-key derivation -/

theorem digitChar_isDigit : ∀ k, k < 10 → (Nat.digitChar k).isDigit = true := by decide

theorem digVal_digitChar : ∀ k, k < 10 → digVal (Nat.digitChar k) = k := by decide

theorem digitChar_ne_year : ∀ k, k < 10 → Nat.digitChar k ≠ '年' := by decide

theorem digitChar_ne_space : ∀ k, k < 10 → Nat.digitChar k ≠ ' ' := by decide

theorem mod10_lt (a : Nat) : a % 10 < 10 := Nat.mod_lt _ (by norm_num)

theorem parseY4_pad4 (y : Nat) (hy : y ≤ 9999) (rest : List Char) :
    parseY4 (pad4L y ++ rest) = some (y, rest) := by
  simp only [pad4L, List.cons_append, List.nil_append, parseY4,
    digitChar_isDigit _ (mod10_lt _), Bool.and_self, if_true,
    digVal_digitChar _ (mod10_lt _), Option.some.injEq, Prod.mk.injEq, and_true]
  omega

theorem parseMo_pad2 (m : Nat) (h1 : 1 ≤ m) (h2 : m ≤ 12) (rest : List Char) :
    parseMo (pad2L m ++ rest) = some (m, rest) := by
  interval_cases m <;>
    simp [pad2L, parseMo, digVal, Nat.digitChar]

theorem parseDay_pad2 (d : Nat) (h1 : 1 ≤ d) (h2 : d ≤ 31) (rest : List Char) :
    parseDay (pad2L d ++ rest) = some (d, rest) := by
  interval_cases d <;>
    simp [pad2L, parseDay, digVal, Nat.digitChar]

theorem daysInMonth_le_31 (y m : Nat) : daysInMonth y m ≤ 31 := by
  unfold daysInMonth
  split
  · split <;> norm_num
  · split <;> norm_num

theorem parseDateSep_hyphen_pad (y m d : Nat) (hy1 : 1 ≤ y) (hy : y ≤ 9999)
    (hm1 : 1 ≤ m) (hm2 : m ≤ 12) (hd1 : 1 ≤ d) (hd2 : d ≤ daysInMonth y m) :
    parseDateSep '-' '-' [] (pad4L y ++ '-' :: (pad2L m ++ '-' :: pad2L d)) = some (y, m) := by
  have hd31 : d ≤ 31 := le_trans hd2 (daysInMonth_le_31 y m)
  have hday : parseDay (pad2L d) = some (d, []) := by
    have := parseDay_pad2 d hd1 hd31 []
    simpa using this
  simp [parseDateSep, parseY4_pad4 y hy, parseMo_pad2 m hm1 hm2, hday, hy1, hd2]

theorem parseDateSep_kanji_pad (y m d : Nat) (hy1 : 1 ≤ y) (hy : y ≤ 9999)
    (hm1 : 1 ≤ m) (hm2 : m ≤ 12) (hd1 : 1 ≤ d) (hd2 : d ≤ daysInMonth y m) :
    parseDateSep '年' '月' ['日'] (pad4L y ++ '年' :: (pad2L m ++ '月' :: (pad2L d ++ ['日']))) =
      some (y, m) := by
  have hd31 : d ≤ 31 := le_trans hd2 (daysInMonth_le_31 y m)
  simp [parseDateSep, parseY4_pad4 y hy, parseMo_pad2 m hm1 hm2,
    parseDay_pad2 d hd1 hd31, hy1, hd2]

theorem contains_true_of_mem {l : List Char} {c : Char} (h : c ∈ l) : l.contains c = true :=
  List.elem_iff.mpr h

theorem contains_false_of_forall {l : List Char} {c : Char} (h : ∀ x ∈ l, x ≠ c) :
    l.contains c = false := by
  cases hc : l.contains c with
  | false => rfl
  | true => exact absurd (List.elem_iff.mp hc) (fun hm => h c hm rfl)

theorem takeWhile_of_all {p : Char → Bool} :
    ∀ {l : List Char}, (∀ x ∈ l, p x = true) → l.takeWhile p = l := by
  intro l
  induction l with
  | nil => intro _; rfl
  | cons a t ih =>
    intro h
    simp only [List.takeWhile_cons, h a (by simp), if_true]
    rw [ih (fun x hx => h x (by simp [hx]))]

theorem hyphen_pad_chars {y m d : Nat} {x : Char}
    (hx : x ∈ pad4L y ++ '-' :: (pad2L m ++ '-' :: pad2L d)) :
    x ∈ pad4L y ∨ x ∈ pad2L m ∨ x ∈ pad2L d ∨ x = '-' := by
  simp only [List.mem_append, List.mem_cons] at hx
  tauto

theorem pad_mem_digitChar {n : Nat} {x : Char} (h2 : x ∈ pad2L n) :
    ∃ k, k < 10 ∧ x = Nat.digitChar k := by
  simp only [pad2L, List.mem_cons, List.not_mem_nil, or_false] at h2
  rcases h2 with h | h
  · exact ⟨n / 10 % 10, mod10_lt _, h⟩
  · exact ⟨n % 10, mod10_lt _, h⟩

theorem pad4_mem_digitChar {n : Nat} {x : Char} (h4 : x ∈ pad4L n) :
    ∃ k, k < 10 ∧ x = Nat.digitChar k := by
  simp only [pad4L, List.mem_cons, List.not_mem_nil, or_false] at h4
  rcases h4 with h | h | h | h
  · exact ⟨n / 1000 % 10, mod10_lt _, h⟩
  · exact ⟨n / 100 % 10, mod10_lt _, h⟩
  · exact ⟨n / 10 % 10, mod10_lt _, h⟩
  · exact ⟨n % 10, mod10_lt _, h⟩

/-- C6: Date-key derivation: the `(year, month)` archive key comes from
`display_date`, falling back in fixed order to `start_date`, then the date
part of `delivery_start_datetime`, `update_datetime`, `confirm_datetime`;
a full-width `YYYY年MM月DD日` date yields the same calendar year and month
as the equivalent `YYYY-MM-DD` date (both give `(strftime %Y, strftime
%m)`); and when no field resolves, or parsing of the resolved string
fails, the key is `("unknown", "unknown")`. -/
theorem C6_date_key (it : Item) (y m d : Nat) (s : String)
    (hy1 : 1 ≤ y) (hy : y ≤ 9999) (hm1 : 1 ≤ m) (hm2 : m ≤ 12)
    (hd1 : 1 ≤ d) (hd2 : d ≤ daysInMonth y m) :
    (truthyS it.display_date = true → dateKey it = toYearMonth (it.display_date.getD "")) ∧
    (truthyS it.display_date = false → truthyS it.start_date = true →
      dateKey it = toYearMonth (it.start_date.getD "")) ∧
    (truthyS it.display_date = false → truthyS it.start_date = false →
      truthyS it.delivery_start_datetime = true →
      dateKey it = toYearMonth (firstWord (it.delivery_start_datetime.getD ""))) ∧
    (truthyS it.display_date = false → truthyS it.start_date = false →
      truthyS it.delivery_start_datetime = false → truthyS it.update_datetime = true →
      dateKey it = toYearMonth (firstWord (it.update_datetime.getD ""))) ∧
    (truthyS it.display_date = false → truthyS it.start_date = false →
      truthyS it.delivery_start_datetime = false → truthyS it.update_datetime = false →
      truthyS it.confirm_datetime = true →
      dateKey it = toYearMonth (firstWord (it.confirm_datetime.getD ""))) ∧
    (truthyS it.display_date = false → truthyS it.start_date = false →
      truthyS it.delivery_start_datetime = false → truthyS it.update_datetime = false →
      truthyS it.confirm_datetime = false → dateKey it = ("unknown", "unknown")) ∧
    (toYearMonth (String.mk (pad4L y ++ '年' :: (pad2L m ++ '月' :: (pad2L d ++ ['日'])))) =
      toYearMonth (String.mk (pad4L y ++ '-' :: (pad2L m ++ '-' :: pad2L d))) ∧
     toYearMonth (String.mk (pad4L y ++ '-' :: (pad2L m ++ '-' :: pad2L d))) =
      (fmtY y, fmt2 m)) ∧
    (s.data.contains '年' = true → parseDateSep '年' '月' ['日'] s.data = none →
      toYearMonth s = ("unknown", "unknown")) ∧
    (s.data.contains '年' = false → parseDateSep '-' '-' [] (firstWord s).data = none →
      toYearMonth s = ("unknown", "unknown")) := by
  have hkanji : (String.mk (pad4L y ++ '年' :: (pad2L m ++ '月' :: (pad2L d ++ ['日'])))).data.contains '年' = true := by
    refine contains_true_of_mem ?_
    simp
  have hnok : ∀ x ∈ pad4L y ++ '-' :: (pad2L m ++ '-' :: pad2L d), x ≠ '年' := by
    intro x hx
    rcases hyphen_pad_chars hx with h | h | h | h
    · obtain ⟨k, hk, rfl⟩ := pad4_mem_digitChar h
      exact digitChar_ne_year k hk
    · obtain ⟨k, hk, rfl⟩ := pad_mem_digitChar h
      exact digitChar_ne_year k hk
    · obtain ⟨k, hk, rfl⟩ := pad_mem_digitChar h
      exact digitChar_ne_year k hk
    · subst h; decide
  have hnosp : ∀ x ∈ pad4L y ++ '-' :: (pad2L m ++ '-' :: pad2L d), (x != ' ') = true := by
    intro x hx
    rcases hyphen_pad_chars hx with h | h | h | h
    · obtain ⟨k, hk, rfl⟩ := pad4_mem_digitChar h
      simpa using digitChar_ne_space k hk
    · obtain ⟨k, hk, rfl⟩ := pad_mem_digitChar h
      simpa using digitChar_ne_space k hk
    · obtain ⟨k, hk, rfl⟩ := pad_mem_digitChar h
      simpa using digitChar_ne_space k hk
    · subst h; decide
  have hhyC : (String.mk (pad4L y ++ '-' :: (pad2L m ++ '-' :: pad2L d))).data.contains '年' = false :=
    contains_false_of_forall hnok
  have hfw : firstWord (String.mk (pad4L y ++ '-' :: (pad2L m ++ '-' :: pad2L d))) =
      String.mk (pad4L y ++ '-' :: (pad2L m ++ '-' :: pad2L d)) := by
    unfold firstWord
    rw [takeWhile_of_all hnosp]
  refine ⟨?_, ?_, ?_, ?_, ?_, ?_, ⟨?_, ?_⟩, ?_, ?_⟩
  · intro h1; simp [dateKey, resolveDisplayDate, h1]
  · intro h1 h2; simp [dateKey, resolveDisplayDate, h1, h2]
  · intro h1 h2 h3; simp [dateKey, resolveDisplayDate, h1, h2, h3]
  · intro h1 h2 h3 h4; simp [dateKey, resolveDisplayDate, h1, h2, h3, h4]
  · intro h1 h2 h3 h4 h5; simp [dateKey, resolveDisplayDate, h1, h2, h3, h4, h5]
  · intro h1 h2 h3 h4 h5
    have : resolveDisplayDate it = "unknown_date" := by
      simp [resolveDisplayDate, h1, h2, h3, h4, h5]
    rw [dateKey, this]
    decide
  · rw [toYearMonth, toYearMonth]
    rw [if_pos hkanji, if_neg (by rw [hhyC]; exact Bool.false_ne_true), hfw]
    show _ = (match parseDateSep '-' '-' [] (pad4L y ++ '-' :: (pad2L m ++ '-' :: pad2L d)) with
      | some (a, b) => (fmtY a, fmt2 b)
      | none => ("unknown", "unknown"))
    rw [parseDateSep_kanji_pad y m d hy1 hy hm1 hm2 hd1 hd2,
      parseDateSep_hyphen_pad y m d hy1 hy hm1 hm2 hd1 hd2]
  · rw [toYearMonth]
    rw [if_neg (by rw [hhyC]; exact Bool.false_ne_true), hfw]
    show (match parseDateSep '-' '-' [] (pad4L y ++ '-' :: (pad2L m ++ '-' :: pad2L d)) with
      | some (a, b) => (fmtY a, fmt2 b)
      | none => ("unknown", "unknown")) = _
    rw [parseDateSep_hyphen_pad y m d hy1 hy hm1 hm2 hd1 hd2]
  · intro h1 h2
    have hm : '年' ∈ s.data := List.elem_iff.mp h1
    simp [toYearMonth, hm, h2]
  · intro h1 h2
    have hm : '年' ∉ s.data := by
      intro hmem
      rw [contains_true_of_mem hmem] at h1
      simp at h1
    simp [toYearMonth, hm, h2]

/-- C6 witness: the date-key theorem applied to a concrete record and to
the date 2021-07-05 in both shapes. -/
theorem C6_date_key_witness :
    toYearMonth (String.mk (pad4L 2021 ++ '年' :: (pad2L 7 ++ '月' :: (pad2L 5 ++ ['日'])))) =
      toYearMonth (String.mk (pad4L 2021 ++ '-' :: (pad2L 7 ++ '-' :: pad2L 5))) ∧
    toYearMonth (String.mk (pad4L 2021 ++ '-' :: (pad2L 7 ++ '-' :: pad2L 5))) =
      (fmtY 2021, fmt2 7) :=
  (C6_date_key ⟨"1", some "2021-07-05", none, none, none, none, none, none, none,
      none, none, []⟩ 2021 7 5 "x" (by norm_num) (by norm_num) (by norm_num)
      (by norm_num) (by norm_num) (by decide)).2.2.2.2.2.2.1

/-! ### C4: the done-marker completion invariant -/

theorem download_file_no_touch (dl : String → DlResult) (force : Bool) (fs : FS)
    (url sp : String) :
    ∀ e ∈ (download_file dl force fs url sp).2.2, ∀ q, e ≠ Ev.touchDone q := by
  intro e he q
  unfold download_file at he
  split at he
  · simp only [List.mem_singleton] at he
    subst he; simp
  · split at he <;>
      (simp only [List.mem_singleton] at he; subst he; simp)

theorem downloadPhotos_no_touch (dl : String → DlResult) (force : Bool) (dir : String) :
    ∀ (phs : List Photo) (fs : FS),
      ∀ e ∈ (downloadPhotos dl force dir phs fs).2, ∀ q, e ≠ Ev.touchDone q := by
  intro phs
  induction phs with
  | nil => intro fs e he; simp [downloadPhotos] at he
  | cons ph rest ih =>
    intro fs e he q
    unfold downloadPhotos at he
    simp only [List.mem_append] at he
    rcases he with he | he
    · exact download_file_no_touch dl force fs ph.url (dir ++ "/" ++ photoName ph) e he q
    · exact ih _ e he q

theorem processAssets_no_touch (args : Args) (dl : String → DlResult) (dir : String)
    (it : Item) (fs : FS) :
    ∀ e ∈ (processAssets args dl dir it fs).2, ∀ q, e ≠ Ev.touchDone q := by
  intro e he q
  unfold processAssets at he
  simp only [List.mem_append] at he
  rcases he with he | he
  · rcases hu : it.file_url with _ | u
    · simp only [hu] at he
      simp at he
    · simp only [hu] at he
      by_cases he0 : (u == "") = true
      · rw [if_pos he0] at he; simp at he
      · rw [if_neg he0] at he
        exact download_file_no_touch dl args.force fs u (dir ++ "/" ++ attachmentName u) e he q
  · exact downloadPhotos_no_touch dl args.force dir it.photos _ e he q

/-- The skip condition of the per-item loop, as one Bool. -/
theorem processOneItem_skip_cond (args : Args) (sname : String)
    (fs : FS) (it : Item) :
    (fs.hasDirB (itemDirPath sname it) && fs.hasFileB (itemDirPath sname it ++ "/done") &&
        !args.full_scan && !args.force) = true ↔
      (fs.hasDirB (itemDirPath sname it) = true ∧
       fs.hasFileB (itemDirPath sname it ++ "/done") = true ∧
       args.full_scan = false ∧ args.force = false) := by
  simp only [Bool.and_eq_true, Bool.not_eq_true']
  tauto

theorem processOneItem_none_iff (args : Args) (dl : String → DlResult) (sname : String)
    (fs : FS) (it : Item) :
    processOneItem args dl sname fs it = none ↔
      (fs.hasDirB (itemDirPath sname it) = true ∧
       fs.hasFileB (itemDirPath sname it ++ "/done") = true ∧
       args.full_scan = false ∧ args.force = false) := by
  rw [← processOneItem_skip_cond args sname fs it]
  unfold processOneItem
  by_cases hc : (fs.hasDirB (itemDirPath sname it) &&
      fs.hasFileB (itemDirPath sname it ++ "/done") &&
      !args.full_scan && !args.force) = true
  · rw [if_pos hc]
    simp [hc]
  · rw [if_neg hc]
    constructor
    · intro hcontra; cases hcontra
    · intro hcond; exact absurd hcond hc

theorem no_touch_cons_append {d : String} {e2 e3 : List Ev}
    (h2 : ∀ e ∈ e2, ∀ q, e ≠ Ev.touchDone q)
    (h3 : ∀ e ∈ e3, ∀ q, e ≠ Ev.touchDone q) :
    ∃ pfx, Ev.mkdirp d :: e2 ++ e3 ++ [Ev.touchDone d] = pfx ++ [Ev.touchDone d] ∧
      ∀ e ∈ pfx, ∀ q, e ≠ Ev.touchDone q := by
  refine ⟨Ev.mkdirp d :: (e2 ++ e3), by simp, ?_⟩
  intro e he q
  rcases (by simpa using he : e = Ev.mkdirp d ∨ e ∈ e2 ∨ e ∈ e3) with rfl | he | he
  · simp
  · exact h2 e he q
  · exact h3 e he q

theorem processOneItem_trace (args : Args) (dl : String → DlResult) (sname : String)
    (fs : FS) (it : Item) (fs2 : FS) (tr : List Ev)
    (h : processOneItem args dl sname fs it = some (fs2, tr)) :
    ∃ pfx, tr = pfx ++ [Ev.touchDone (itemDirPath sname it)] ∧
      ∀ e ∈ pfx, ∀ q, e ≠ Ev.touchDone q := by
  unfold processOneItem at h
  by_cases hc : (fs.hasDirB (itemDirPath sname it) &&
      fs.hasFileB (itemDirPath sname it ++ "/done") &&
      !args.full_scan && !args.force) = true
  · rw [if_pos hc] at h; cases h
  · rw [if_neg hc] at h
    dsimp only at h
    rw [Option.some_inj, Prod.mk.injEq] at h
    rw [← h.2]
    refine no_touch_cons_append ?_ ?_
    · intro e he q
      by_cases hwr : (args.force || !(FS.mkdirp fs (itemDirPath sname it)).hasFileB
          (itemDirPath sname it ++ "/info.json")) = true
      · rw [if_pos hwr] at he
        simp only [List.mem_singleton] at he
        subst he; simp
      · rw [if_neg hwr] at he
        simp at he
    · intro e he q
      by_cases hna : args.no_assets = true
      · rw [if_pos hna] at he
        simp at he
      · rw [if_neg hna] at he
        exact processAssets_no_touch args dl (itemDirPath sname it) it _ e he q

theorem processContactItem_none_iff (args : Args) (sname pre : String) (fs : FS)
    (ci : ContactItem) (hdd : truthyS ci.display_date = true) :
    processContactItem args sname pre fs ci = none ↔
      (fs.hasDirB (contactDirPath sname pre ci) = true ∧
       fs.hasFileB (contactDirPath sname pre ci ++ "/done") = true ∧
       args.full_scan = false ∧ args.force = false) := by
  unfold processContactItem
  rw [hdd]
  simp only [Bool.not_true, Bool.false_eq_true, if_false]
  by_cases hc : (fs.hasDirB (contactDirPath sname pre ci) &&
      fs.hasFileB (contactDirPath sname pre ci ++ "/done") &&
      !args.full_scan && !args.force) = true
  · rw [if_pos hc]
    simp only [Bool.and_eq_true, Bool.not_eq_true'] at hc
    simp [hc.1.1.1, hc.1.1.2, hc.1.2, hc.2]
  · rw [if_neg hc]
    constructor
    · intro hcontra; cases hcontra
    · intro hcond
      refine absurd ?_ hc
      simp [hcond.1, hcond.2.1, hcond.2.2.1, hcond.2.2.2]

/-- C4: Done-marker completion invariant: for every archived timeline
item, the `done` marker is the last event of the item's processing — every
`info.json` or attachment write precedes it; the resume check holds (the
walk skips an item) exactly when the directory exists, contains `done`,
and neither full-scan nor force is set; so a directory present without
`done` is reprocessed on the next incremental run.  The contact-book flow
satisfies the same invariant, its per-item trace being exactly
mkdir, info.json, done. -/
theorem C4_done_marker (args : Args) (dl : String → DlResult) (sname pre : String)
    (fs : FS) (it : Item) (ci : ContactItem)
    (hdd : truthyS ci.display_date = true) :
    (processOneItem args dl sname fs it = none ↔
      (fs.hasDirB (itemDirPath sname it) = true ∧
       fs.hasFileB (itemDirPath sname it ++ "/done") = true ∧
       args.full_scan = false ∧ args.force = false)) ∧
    (∀ fs2 tr, processOneItem args dl sname fs it = some (fs2, tr) →
      ∃ pfx, tr = pfx ++ [Ev.touchDone (itemDirPath sname it)] ∧
        ∀ e ∈ pfx, ∀ q, e ≠ Ev.touchDone q) ∧
    (fs.hasFileB (itemDirPath sname it ++ "/done") = false →
      (processOneItem args dl sname fs it).isSome = true) ∧
    (processContactItem args sname pre fs ci = none ↔
      (fs.hasDirB (contactDirPath sname pre ci) = true ∧
       fs.hasFileB (contactDirPath sname pre ci ++ "/done") = true ∧
       args.full_scan = false ∧ args.force = false)) ∧
    (∀ fs2 tr, processContactItem args sname pre fs ci = some (fs2, tr) →
      tr = [Ev.mkdirp (contactDirPath sname pre ci),
            Ev.writeInfo (contactDirPath sname pre ci),
            Ev.touchDone (contactDirPath sname pre ci)]) ∧
    (fs.hasFileB (contactDirPath sname pre ci ++ "/done") = false →
      (processContactItem args sname pre fs ci).isSome = true) := by
  refine ⟨processOneItem_none_iff args dl sname fs it, ?_, ?_, ?_, ?_, ?_⟩
  · intro fs2 tr h
    exact processOneItem_trace args dl sname fs it fs2 tr h
  · intro hnof
    cases hp : processOneItem args dl sname fs it with
    | some v => rfl
    | none =>
      have := (processOneItem_none_iff args dl sname fs it).mp hp
      rw [this.2.1] at hnof
      cases hnof
  · exact processContactItem_none_iff args sname pre fs ci hdd
  · intro fs2 tr h
    unfold processContactItem at h
    rw [hdd] at h
    simp only [Bool.not_true, Bool.false_eq_true, if_false] at h
    split at h
    · cases h
    · rw [Option.some_inj] at h
      exact (congrArg Prod.snd h).symm
  · intro hnof
    cases hp : processContactItem args sname pre fs ci with
    | some v => rfl
    | none =>
      have := (processContactItem_none_iff args sname pre fs ci hdd).mp hp
      rw [this.2.1] at hnof
      cases hnof

/-- C4 witness: the invariant applied to a concrete fresh item and a fresh
contact-book record on an empty filesystem. -/
theorem C4_done_marker_witness :
    (processOneItem ⟨false, true, false⟩ (fun _ => DlResult.ok) "S" ⟨[], []⟩
        ⟨"7", some "2024-03-05", none, none, none, none, some "topics", none, none,
          none, none, []⟩ = none ↔
      (FS.hasDirB ⟨[], []⟩ (itemDirPath "S" ⟨"7", some "2024-03-05", none, none, none,
          none, some "topics", none, none, none, none, []⟩) = true ∧
       FS.hasFileB ⟨[], []⟩ (itemDirPath "S" ⟨"7", some "2024-03-05", none, none, none,
          none, some "topics", none, none, none, none, []⟩ ++ "/done") = true ∧
       (⟨false, true, false⟩ : Args).full_scan = false ∧
       (⟨false, true, false⟩ : Args).force = false)) ∧
    (∀ fs2 tr, processOneItem ⟨false, true, false⟩ (fun _ => DlResult.ok) "S" ⟨[], []⟩
        ⟨"7", some "2024-03-05", none, none, none, none, some "topics", none, none,
          none, none, []⟩ = some (fs2, tr) →
      ∃ pfx, tr = pfx ++ [Ev.touchDone (itemDirPath "S" ⟨"7", some "2024-03-05", none,
          none, none, none, some "topics", none, none, none, none, []⟩)] ∧
        ∀ e ∈ pfx, ∀ q, e ≠ Ev.touchDone q) ∧
    (FS.hasFileB ⟨[], []⟩ (itemDirPath "S" ⟨"7", some "2024-03-05", none, none, none,
        none, some "topics", none, none, none, none, []⟩ ++ "/done") = false →
      (processOneItem ⟨false, true, false⟩ (fun _ => DlResult.ok) "S" ⟨[], []⟩
        ⟨"7", some "2024-03-05", none, none, none, none, some "topics", none, none,
          none, none, []⟩).isSome = true) ∧
    (processContactItem ⟨false, true, false⟩ "S" "contact" ⟨[], []⟩
        ⟨"8", some "2024-03-05"⟩ = none ↔
      (FS.hasDirB ⟨[], []⟩ (contactDirPath "S" "contact" ⟨"8", some "2024-03-05"⟩) = true ∧
       FS.hasFileB ⟨[], []⟩ (contactDirPath "S" "contact" ⟨"8", some "2024-03-05"⟩ ++
          "/done") = true ∧
       (⟨false, true, false⟩ : Args).full_scan = false ∧
       (⟨false, true, false⟩ : Args).force = false)) ∧
    (∀ fs2 tr, processContactItem ⟨false, true, false⟩ "S" "contact" ⟨[], []⟩
        ⟨"8", some "2024-03-05"⟩ = some (fs2, tr) →
      tr = [Ev.mkdirp (contactDirPath "S" "contact" ⟨"8", some "2024-03-05"⟩),
            Ev.writeInfo (contactDirPath "S" "contact" ⟨"8", some "2024-03-05"⟩),
            Ev.touchDone (contactDirPath "S" "contact" ⟨"8", some "2024-03-05"⟩)]) ∧
    (FS.hasFileB ⟨[], []⟩ (contactDirPath "S" "contact" ⟨"8", some "2024-03-05"⟩ ++
        "/done") = false →
      (processContactItem ⟨false, true, false⟩ "S" "contact" ⟨[], []⟩
        ⟨"8", some "2024-03-05"⟩).isSome = true) :=
  C4_done_marker ⟨false, true, false⟩ (fun _ => DlResult.ok) "S" "contact" ⟨[], []⟩
    ⟨"7", some "2024-03-05", none, none, none, none, some "topics", none, none,
      none, none, []⟩ ⟨"8", some "2024-03-05"⟩ (by decide)

/-! ### C5: best-effort attachment policy -/

theorem FS.mkdirp_files (fs : FS) (d : String) : (fs.mkdirp d).files = fs.files := by
  unfold FS.mkdirp; split <;> rfl

theorem FS.hasFileB_mkdirp (fs : FS) (d q : String) :
    (fs.mkdirp d).hasFileB q = fs.hasFileB q := by
  unfold FS.hasFileB
  rw [FS.mkdirp_files]

theorem FS.hasFileB_writeF_self (fs : FS) (p : String) (sz : Nat) :
    (fs.writeF p sz).hasFileB p = true := by
  simp [FS.writeF, FS.hasFileB]

theorem FS.hasFileB_writeF_mono (fs : FS) (p q : String) (sz : Nat)
    (h : fs.hasFileB q = true) : (fs.writeF p sz).hasFileB q = true := by
  simp only [FS.writeF, FS.hasFileB, List.any_cons] at h ⊢
  simp [h]

theorem FS.hasFileB_touchF_self (fs : FS) (p : String) : (fs.touchF p).hasFileB p = true := by
  unfold FS.touchF
  split
  · assumption
  · simp [FS.hasFileB, List.any_cons]

theorem FS.hasFileB_touchF_mono (fs : FS) (p q : String) (h : fs.hasFileB q = true) :
    (fs.touchF p).hasFileB q = true := by
  unfold FS.touchF
  split
  · exact h
  · simp only [FS.hasFileB, List.any_cons] at h ⊢
    simp [h]

theorem download_file_hasFileB_mono (dl : String → DlResult) (force : Bool) (fs : FS)
    (url sp q : String) (h : fs.hasFileB q = true) :
    (download_file dl force fs url sp).1.hasFileB q = true := by
  unfold download_file
  split
  · exact h
  · split
    · exact FS.hasFileB_writeF_mono fs sp q 1 h
    · exact h
    · exact h

theorem downloadPhotos_hasFileB_mono (dl : String → DlResult) (force : Bool) (dir : String) :
    ∀ (phs : List Photo) (fs : FS) (q : String), fs.hasFileB q = true →
      (downloadPhotos dl force dir phs fs).1.hasFileB q = true := by
  intro phs
  induction phs with
  | nil => intro fs q h; exact h
  | cons ph rest ih =>
    intro fs q h
    unfold downloadPhotos
    exact ih _ q (download_file_hasFileB_mono dl force fs ph.url _ q h)

theorem processAssets_hasFileB_mono (args : Args) (dl : String → DlResult) (dir : String)
    (it : Item) (fs : FS) (q : String) (h : fs.hasFileB q = true) :
    (processAssets args dl dir it fs).1.hasFileB q = true := by
  unfold processAssets
  rcases hu : it.file_url with _ | u <;> simp only [hu]
  · exact downloadPhotos_hasFileB_mono dl args.force dir it.photos fs q h
  · by_cases he0 : (u == "") = true
    · rw [if_pos he0]
      exact downloadPhotos_hasFileB_mono dl args.force dir it.photos fs q h
    · rw [if_neg he0]
      exact downloadPhotos_hasFileB_mono dl args.force dir it.photos _ q
        (download_file_hasFileB_mono dl args.force fs u _ q h)

theorem download_file_dlWrite {dl : String → DlResult} {force : Bool} {fs : FS}
    {url sp p : String} (h : Ev.dlWrite p ∈ (download_file dl force fs url sp).2.2) :
    p = sp ∧ dl url = DlResult.ok := by
  unfold download_file at h
  split at h
  · simp at h
  · rcases hu : dl url with _ | _ | _ <;> simp only [hu] at h
    · simp only [List.mem_singleton, Ev.dlWrite.injEq] at h
      exact ⟨h, rfl⟩
    · simp at h
    · simp at h

theorem downloadPhotos_dlWrite {dl : String → DlResult} {force : Bool} {dir p : String} :
    ∀ {phs : List Photo} {fs : FS},
      Ev.dlWrite p ∈ (downloadPhotos dl force dir phs fs).2 →
      ∃ ph, ph ∈ phs ∧ p = dir ++ "/" ++ photoName ph ∧ dl ph.url = DlResult.ok := by
  intro phs
  induction phs with
  | nil => intro fs h; simp [downloadPhotos] at h
  | cons ph rest ih =>
    intro fs h
    unfold downloadPhotos at h
    simp only [List.mem_append] at h
    rcases h with h | h
    · obtain ⟨hp, hok⟩ := download_file_dlWrite h
      exact ⟨ph, by simp, hp, hok⟩
    · obtain ⟨ph2, hmem, hp, hok⟩ := ih h
      exact ⟨ph2, by simp [hmem], hp, hok⟩

theorem processAssets_dlWrite {args : Args} {dl : String → DlResult} {dir : String}
    {it : Item} {fs : FS} {p : String}
    (h : Ev.dlWrite p ∈ (processAssets args dl dir it fs).2) :
    ∃ u, (u, p) ∈ attachmentTargets dir it ∧ dl u = DlResult.ok := by
  unfold processAssets at h
  simp only [List.mem_append] at h
  rcases h with h | h
  · rcases hu : it.file_url with _ | u <;> simp only [hu] at h
    · simp at h
    · by_cases he0 : (u == "") = true
      · rw [if_pos he0] at h; simp at h
      · rw [if_neg he0] at h
        obtain ⟨hp, hok⟩ := download_file_dlWrite h
        refine ⟨u, ?_, hok⟩
        simp [attachmentTargets, hu, he0, hp]
  · obtain ⟨ph, hmem, hp, hok⟩ := downloadPhotos_dlWrite h
    refine ⟨ph.url, ?_, hok⟩
    rw [attachmentTargets]
    refine List.mem_append_right _ ?_
    rw [hp]
    exact List.mem_map_of_mem _ hmem

theorem dlWrite_in_assets {p d : String} {e2 e3 : List Ev}
    (h2 : e2 = [] ∨ ∃ d2, e2 = [Ev.writeInfo d2])
    (hmem : Ev.dlWrite p ∈ Ev.mkdirp d :: e2 ++ e3 ++ [Ev.touchDone d]) :
    Ev.dlWrite p ∈ e3 := by
  rcases h2 with rfl | ⟨d2, rfl⟩ <;> simpa using hmem

/-- C5: Best-effort attachment policy: for an item the walk actually
processes (its `done` marker absent), a failed download (non-200 status or
exception caught inside `download_file`) only means no completed file for
that one attachment — no `dlWrite` event for its path appears; `info.json`
is still written when forced or absent (and is present afterwards in any
case), and the `done` marker is still created. -/
theorem C5_best_effort (args : Args) (dl : String → DlResult) (sname : String)
    (fs : FS) (it : Item)
    (hna : args.no_assets = false)
    (hnd : fs.hasFileB (itemDirPath sname it ++ "/done") = false) :
    ∃ fs2 tr, processOneItem args dl sname fs it = some (fs2, tr) ∧
      fs2.hasFileB (itemDirPath sname it ++ "/done") = true ∧
      fs2.hasFileB (itemDirPath sname it ++ "/info.json") = true ∧
      ((args.force = true ∨ fs.hasFileB (itemDirPath sname it ++ "/info.json") = false) →
        Ev.writeInfo (itemDirPath sname it) ∈ tr) ∧
      (∀ p, (∀ u, (u, p) ∈ attachmentTargets (itemDirPath sname it) it →
          dl u ≠ DlResult.ok) → Ev.dlWrite p ∉ tr) := by
  have hc : ¬ ((fs.hasDirB (itemDirPath sname it) &&
      fs.hasFileB (itemDirPath sname it ++ "/done") &&
      !args.full_scan && !args.force) = true) := by
    simp [hnd]
  unfold processOneItem
  rw [if_neg hc]
  dsimp only
  rw [if_neg (show ¬ (args.no_assets = true) by simp [hna])]
  by_cases hwr : (args.force || !(FS.mkdirp fs (itemDirPath sname it)).hasFileB
      (itemDirPath sname it ++ "/info.json")) = true
  · rw [if_pos hwr]
    refine ⟨_, _, rfl, ?_, ?_, ?_, ?_⟩
    · exact FS.hasFileB_touchF_self _ _
    · exact FS.hasFileB_touchF_mono _ _ _
        (processAssets_hasFileB_mono _ _ _ _ _ _ (FS.hasFileB_writeF_self _ _ _))
    · intro _; simp
    · intro p hfail hmem
      obtain ⟨u, hmem2, hok⟩ :=
        processAssets_dlWrite (dlWrite_in_assets (Or.inr ⟨_, rfl⟩) hmem)
      exact hfail u hmem2 hok
  · rw [if_neg hwr]
    simp only [Bool.or_eq_true, Bool.not_eq_true', not_or] at hwr
    obtain ⟨hforce, hinfo⟩ := hwr
    rw [FS.hasFileB_mkdirp] at hinfo
    have hinfo2 : fs.hasFileB (itemDirPath sname it ++ "/info.json") = true := by
      cases hb : fs.hasFileB (itemDirPath sname it ++ "/info.json") with
      | false => exact absurd hb hinfo
      | true => rfl
    refine ⟨_, _, rfl, ?_, ?_, ?_, ?_⟩
    · exact FS.hasFileB_touchF_self _ _
    · refine FS.hasFileB_touchF_mono _ _ _
        (processAssets_hasFileB_mono _ _ _ _ _ _ ?_)
      rw [FS.hasFileB_mkdirp]
      exact hinfo2
    · intro hcase
      rcases hcase with hcase | hcase
      · exact absurd hcase hforce
      · simp [hinfo2] at hcase
    · intro p hfail hmem
      obtain ⟨u, hmem2, hok⟩ :=
        processAssets_dlWrite (dlWrite_in_assets (Or.inl rfl) hmem)
      exact hfail u hmem2 hok

/-- C5 witness: a fresh item whose only attachment download fails still
gets its `info.json` and `done` marker, and no file write for the failed
attachment appears. -/
theorem C5_best_effort_witness :
    ∃ fs2 tr, processOneItem ⟨false, false, false⟩ (fun _ => DlResult.httpFail) "S"
        ⟨[], []⟩ ⟨"7", some "2024-03-05", none, none, none, none, some "topics", none,
          none, none, some "/f/doc.pdf", []⟩ = some (fs2, tr) ∧
      fs2.hasFileB (itemDirPath "S" ⟨"7", some "2024-03-05", none, none, none, none,
          some "topics", none, none, none, some "/f/doc.pdf", []⟩ ++ "/done") = true ∧
      fs2.hasFileB (itemDirPath "S" ⟨"7", some "2024-03-05", none, none, none, none,
          some "topics", none, none, none, some "/f/doc.pdf", []⟩ ++ "/info.json") = true ∧
      (((⟨false, false, false⟩ : Args).force = true ∨
          FS.hasFileB ⟨[], []⟩ (itemDirPath "S" ⟨"7", some "2024-03-05", none, none, none,
            none, some "topics", none, none, none, some "/f/doc.pdf", []⟩ ++
            "/info.json") = false) →
        Ev.writeInfo (itemDirPath "S" ⟨"7", some "2024-03-05", none, none, none, none,
          some "topics", none, none, none, some "/f/doc.pdf", []⟩) ∈ tr) ∧
      (∀ p, (∀ u, (u, p) ∈ attachmentTargets (itemDirPath "S" ⟨"7", some "2024-03-05",
            none, none, none, none, some "topics", none, none, none,
            some "/f/doc.pdf", []⟩)
          ⟨"7", some "2024-03-05", none, none, none, none, some "topics", none, none,
            none, some "/f/doc.pdf", []⟩ →
          (fun _ => DlResult.httpFail) u ≠ DlResult.ok) → Ev.dlWrite p ∉ tr) :=
  C5_best_effort ⟨false, false, false⟩ (fun _ => DlResult.httpFail) "S" ⟨[], []⟩
    ⟨"7", some "2024-03-05", none, none, none, none, some "topics", none, none, none,
      some "/f/doc.pdf", []⟩ rfl (by decide)

/-! ### C8: round trip of the embedded id token -/

theorem startsWithL_append_self : ∀ (l r : List Char), startsWithL l (l ++ r) = true := by
  intro l r
  induction l with
  | nil => rfl
  | cons a t ih => simp [startsWithL, ih]

theorem endsWithL_append (pre tok : List Char) : endsWithL tok (pre ++ tok) = true := by
  unfold endsWithL
  rw [List.reverse_append]
  exact startsWithL_append_self tok.reverse pre.reverse

theorem takeWhile_append_all (p : Char → Bool) :
    ∀ (l r : List Char), (∀ c ∈ l, p c = true) →
      (l ++ r).takeWhile p = l ++ r.takeWhile p := by
  intro l
  induction l with
  | nil => intro r _; rfl
  | cons a t ih =>
    intro r h
    rw [List.cons_append, List.takeWhile_cons, if_pos (h a (by simp)), List.cons_append,
      ih r (fun c hc => h c (by simp [hc]))]

theorem dropWhile_append_all (p : Char → Bool) :
    ∀ (l r : List Char), (∀ c ∈ l, p c = true) →
      (l ++ r).dropWhile p = r.dropWhile p := by
  intro l
  induction l with
  | nil => intro r _; rfl
  | cons a t ih =>
    intro r h
    rw [List.cons_append, List.dropWhile_cons, if_pos (h a (by simp))]
    exact ih r (fun c hc => h c (by simp [hc]))

theorem takeWhile_append_stop (p : Char → Bool) :
    ∀ (l r : List Char), ¬ (∀ c ∈ l, p c = true) →
      (l ++ r).takeWhile p = l.takeWhile p := by
  intro l
  induction l with
  | nil => intro r h; exact absurd (by simp) h
  | cons a t ih =>
    intro r h
    cases ha : p a with
    | false =>
      rw [List.cons_append, List.takeWhile_cons, if_neg (by simp [ha]),
        List.takeWhile_cons, if_neg (by simp [ha])]
    | true =>
      have ht : ¬ (∀ c ∈ t, p c = true) := by
        intro hall
        exact h (fun c hc => by
          rcases (by simpa using hc : c = a ∨ c ∈ t) with rfl | hc2
          · exact ha
          · exact hall c hc2)
      rw [List.cons_append, List.takeWhile_cons, if_pos ha, List.takeWhile_cons,
        if_pos ha, ih r ht]

theorem dropWhile_append_stop (p : Char → Bool) :
    ∀ (l r : List Char), ¬ (∀ c ∈ l, p c = true) →
      (l ++ r).dropWhile p = l.dropWhile p ++ r := by
  intro l
  induction l with
  | nil => intro r h; exact absurd (by simp) h
  | cons a t ih =>
    intro r h
    cases ha : p a with
    | false =>
      rw [List.cons_append, List.dropWhile_cons, if_neg (by simp [ha]),
        List.dropWhile_cons, if_neg (by simp [ha]), List.cons_append]
    | true =>
      have ht : ¬ (∀ c ∈ t, p c = true) := by
        intro hall
        exact h (fun c hc => by
          rcases (by simpa using hc : c = a ∨ c ∈ t) with rfl | hc2
          · exact ha
          · exact hall c hc2)
      rw [List.cons_append, List.dropWhile_cons, if_pos ha, List.dropWhile_cons,
        if_pos ha, ih r ht]

theorem isDigit_not_pySpace {c : Char} (h : c.isDigit = true) : pySpace c = false := by
  have hne : ∀ x : Char, x.isDigit = false → (c == x) = false := by
    intro x hx
    cases hcx : c == x with
    | false => rfl
    | true =>
      have hcxe : c = x := beq_iff_eq.mp hcx
      subst hcxe
      rw [hx] at h
      cases h
  unfold pySpace
  rw [hne ' ' (by decide), hne '\t' (by decide), hne '\n' (by decide),
    hne '\r' (by decide), hne '\x0b' (by decide), hne '\x0c' (by decide)]
  rfl

/-- Reduction of the anchored match once the `(ID:` literal is present. -/
theorem matchIdAt_open (rest : List Char) :
    matchIdAt ('(' :: 'I' :: 'D' :: ':' :: rest) =
      (match (rest.dropWhile pySpace).dropWhile Char.isDigit with
       | e :: _ =>
         if e = ')' ∧ (rest.dropWhile pySpace).takeWhile Char.isDigit ≠ [] then
           some (String.mk ((rest.dropWhile pySpace).takeWhile Char.isDigit))
         else none
       | [] => none) := by
  simp [matchIdAt]

theorem matchIdAt_token (idc : List Char) (suffix : List Char)
    (hne : idc ≠ []) (hdig : ∀ c ∈ idc, c.isDigit = true) :
    matchIdAt ('(' :: 'I' :: 'D' :: ':' :: ' ' :: (idc ++ ')' :: suffix)) =
      some (String.mk idc) := by
  obtain ⟨h0, t0, rfl⟩ : ∃ h0 t0, idc = h0 :: t0 := by
    cases idc with
    | nil => exact absurd rfl hne
    | cons h0 t0 => exact ⟨h0, t0, rfl⟩
  have e1 : (' ' :: ((h0 :: t0) ++ ')' :: suffix)).dropWhile pySpace =
      (h0 :: t0) ++ ')' :: suffix := by
    rw [List.dropWhile_cons, if_pos (by decide : pySpace ' ' = true), List.cons_append,
      List.dropWhile_cons, if_neg (by simp [isDigit_not_pySpace (hdig h0 (by simp))])]
  have e2 : ((h0 :: t0) ++ ')' :: suffix).takeWhile Char.isDigit = h0 :: t0 := by
    rw [takeWhile_append_all Char.isDigit (h0 :: t0) (')' :: suffix) hdig,
      List.takeWhile_cons, if_neg (by decide), List.append_nil]
  have e3 : ((h0 :: t0) ++ ')' :: suffix).dropWhile Char.isDigit = ')' :: suffix := by
    rw [dropWhile_append_all Char.isDigit (h0 :: t0) (')' :: suffix) hdig,
      List.dropWhile_cons, if_neg (by decide)]
  rw [matchIdAt_open, e1, e2, e3]
  dsimp only
  rw [if_pos ⟨rfl, by simp⟩]

theorem dropWhile_cons_false {p : Char → Bool} {a : Char} (l : List Char)
    (h : p a = false) : (a :: l).dropWhile p = a :: l := by
  rw [List.dropWhile_cons, h]
  simp

theorem matchIdAt_append {x idc : List Char} {g : String}
    (hx : x ≠ [])
    (h : matchIdAt (x ++ ('(' :: 'I' :: 'D' :: ':' :: ' ' :: (idc ++ [')']))) = some g) :
    matchIdAt x = some g := by
  match x, hx with
  | [a], _ =>
    exfalso
    simp [matchIdAt] at h
  | [a, b], _ =>
    exfalso
    simp [matchIdAt] at h
  | [a, b, c], _ =>
    exfalso
    simp [matchIdAt] at h
  | a :: b :: c :: d :: xr, _ =>
    by_cases hcond : a = '(' ∧ b = 'I' ∧ c = 'D' ∧ d = ':'
    · obtain ⟨rfl, rfl, rfl, rfl⟩ := hcond
      rw [List.cons_append, List.cons_append, List.cons_append, List.cons_append,
        matchIdAt_open] at h
      rw [matchIdAt_open]
      by_cases hall : ∀ cc ∈ xr, pySpace cc = true
      · exfalso
        rw [dropWhile_append_all pySpace xr _ hall, List.dropWhile_cons,
          if_neg (by decide)] at h
        rw [dropWhile_cons_false _ (by decide : Char.isDigit '(' = false)] at h
        dsimp only at h
        rw [if_neg (by simp)] at h
        cases h
      · rw [dropWhile_append_stop pySpace xr _ hall] at h
        by_cases hdall : ∀ cc ∈ xr.dropWhile pySpace, Char.isDigit cc = true
        · exfalso
          rw [dropWhile_append_all Char.isDigit _ _ hdall, List.dropWhile_cons,
            if_neg (by decide)] at h
          dsimp only at h
          rw [if_neg (by simp)] at h
          cases h
        · rw [dropWhile_append_stop Char.isDigit _ _ hdall,
            takeWhile_append_stop Char.isDigit _ _ hdall] at h
          have hdx : (xr.dropWhile pySpace).dropWhile Char.isDigit ≠ [] := by
            intro hnil
            exact hdall (List.dropWhile_eq_nil_iff.mp hnil)
          obtain ⟨e, dx2, hdx2⟩ : ∃ e dx2,
              (xr.dropWhile pySpace).dropWhile Char.isDigit = e :: dx2 := by
            cases hq : (xr.dropWhile pySpace).dropWhile Char.isDigit with
            | nil => exact absurd hq hdx
            | cons e dx2 => exact ⟨e, dx2, rfl⟩
          rw [hdx2] at h ⊢
          rw [List.cons_append] at h
          exact h
    · exfalso
      rw [List.cons_append, List.cons_append, List.cons_append, List.cons_append] at h
      simp only [matchIdAt] at h
      rw [if_neg hcond] at h
      cases h

theorem findIdToken_none_parts {c : Char} {rest : List Char}
    (h : findIdToken (c :: rest) = none) :
    matchIdAt (c :: rest) = none ∧ findIdToken rest = none := by
  rw [findIdToken] at h
  cases hm : matchIdAt (c :: rest) with
  | some d => rw [hm] at h; cases h
  | none => rw [hm] at h; exact ⟨rfl, h⟩

theorem findIdToken_append (idc : List Char) (hne : idc ≠ [])
    (hdig : ∀ c ∈ idc, c.isDigit = true) :
    ∀ (a : List Char), findIdToken a = none →
      findIdToken (a ++ ('(' :: 'I' :: 'D' :: ':' :: ' ' :: (idc ++ [')']))) =
        some (String.mk idc) := by
  intro a
  induction a with
  | nil =>
    intro _
    rw [List.nil_append, findIdToken]
    rw [matchIdAt_token idc [] hne hdig]
  | cons c rest ih =>
    intro h
    obtain ⟨hm, hrest⟩ := findIdToken_none_parts h
    rw [List.cons_append, findIdToken]
    have hmc : matchIdAt (c :: (rest ++ ('(' :: 'I' :: 'D' :: ':' :: ' ' ::
        (idc ++ [')'])))) = none := by
      cases hq : matchIdAt (c :: (rest ++ ('(' :: 'I' :: 'D' :: ':' :: ' ' ::
          (idc ++ [')'])))) with
      | none => rfl
      | some g =>
        exfalso
        have := @matchIdAt_append (c :: rest) idc g
          (by simp) (by rw [List.cons_append]; exact hq)
        rw [this] at hm
        cases hm
    rw [hmc]
    exact ih hrest

/-- The character-list form of the literal dedup token. -/
theorem idToken_data (id : String) :
    (idToken id).data = '(' :: 'I' :: 'D' :: ':' :: ' ' :: (id.data ++ [')']) := by
  show ("(ID: " ++ id ++ ")").data = _
  rw [String.data_append, String.data_append]
  rfl

/-- C8: ID-embedding round trip: for a record with a non-empty digit-string
id whose rendered text before the token contains no `(ID: <digits>)`
match, both composed messages are exactly the rendered prefix followed by
the literal token `(ID: <id>)`, the message ends with that token, and the
read-side regex of `fetch_seen_ids_from_slack` recovers exactly the id
from the message. -/
theorem C8_id_roundtrip (it : Item)
    (hne : it.id.data ≠ [])
    (hdig : ∀ c ∈ it.id.data, c.isDigit = true)
    (hA : findIdToken (activityMessagePre it).data = none)
    (hT : findIdToken (topicsMessagePre it).data = none) :
    ((activityMessage it).data = (activityMessagePre it).data ++ (idToken it.id).data ∧
     endsWithL (idToken it.id).data (activityMessage it).data = true ∧
     findIdToken (activityMessage it).data = some it.id) ∧
    ((topicsMessage it).data = (topicsMessagePre it).data ++ (idToken it.id).data ∧
     endsWithL (idToken it.id).data (topicsMessage it).data = true ∧
     findIdToken (topicsMessage it).data = some it.id) := by
  have hdataA : (activityMessage it).data =
      (activityMessagePre it).data ++ (idToken it.id).data := by
    simp [activityMessage, activityMessagePre, idToken, String.data_append]
  have hdataT : (topicsMessage it).data =
      (topicsMessagePre it).data ++ (idToken it.id).data := by
    simp [topicsMessage, topicsMessagePre, idToken, String.data_append]
  have hfind : ∀ pre : List Char, findIdToken pre = none →
      findIdToken (pre ++ (idToken it.id).data) = some it.id := by
    intro pre hp
    rw [idToken_data]
    have := findIdToken_append it.id.data hne hdig pre hp
    rw [this]
  refine ⟨⟨hdataA, ?_, ?_⟩, ⟨hdataT, ?_, ?_⟩⟩
  · rw [hdataA]; exact endsWithL_append _ _
  · rw [hdataA]; exact hfind _ hA
  · rw [hdataT]; exact endsWithL_append _ _
  · rw [hdataT]; exact hfind _ hT

/-- C8 witness: a concrete topics record with id 42 and plain text: the
message ends in `(ID: 42)` and the scan recovers `42`. -/
theorem C8_id_roundtrip_witness :
    ((activityMessage ⟨"42", some "2024-03-05", none, none, none, none, some "topics",
        some "Title", some "Body", none, none, []⟩).data =
      (activityMessagePre ⟨"42", some "2024-03-05", none, none, none, none, some "topics",
        some "Title", some "Body", none, none, []⟩).data ++ (idToken "42").data ∧
     endsWithL (idToken "42").data (activityMessage ⟨"42", some "2024-03-05", none, none,
        none, none, some "topics", some "Title", some "Body", none, none, []⟩).data = true ∧
     findIdToken (activityMessage ⟨"42", some "2024-03-05", none, none, none, none,
        some "topics", some "Title", some "Body", none, none, []⟩).data = some "42") ∧
    ((topicsMessage ⟨"42", some "2024-03-05", none, none, none, none, some "topics",
        some "Title", some "Body", none, none, []⟩).data =
      (topicsMessagePre ⟨"42", some "2024-03-05", none, none, none, none, some "topics",
        some "Title", some "Body", none, none, []⟩).data ++ (idToken "42").data ∧
     endsWithL (idToken "42").data (topicsMessage ⟨"42", some "2024-03-05", none, none,
        none, none, some "topics", some "Title", some "Body", none, none, []⟩).data = true ∧
     findIdToken (topicsMessage ⟨"42", some "2024-03-05", none, none, none, none,
        some "topics", some "Title", some "Body", none, none, []⟩).data = some "42") :=
  C8_id_roundtrip ⟨"42", some "2024-03-05", none, none, none, none, some "topics",
    some "Title", some "Body", none, none, []⟩
    (by decide) (by decide) (by decide) (by decide)

/-! ### C2: chat relay deduplication -/

theorem mem_insertId_self (d : String) (s : List String) : d ∈ insertId d s := by
  unfold insertId
  split
  · next h => exact List.elem_iff.mp h
  · exact List.mem_cons_self d s

theorem mem_insertId_mono {x : String} {s : List String} (h : x ∈ s) (d : String) :
    x ∈ insertId d s := by
  unfold insertId
  split
  · exact h
  · exact List.mem_cons_of_mem d h

theorem scanFile_of_none {s : List String} {f : SlackFile}
    (h : f.initial_comment = none) : scanFile s f = s := by
  unfold scanFile
  rw [h]

theorem scanFile_of_clean {s : List String} {f : SlackFile} {c : String}
    (h : f.initial_comment = some c) (h2 : findIdToken c.data = none) :
    scanFile s f = s := by
  unfold scanFile
  rw [h]
  show (match findIdToken c.data with
    | some d => insertId d s
    | none => s) = s
  rw [h2]

theorem scanFile_of_found {s : List String} {f : SlackFile} {c d : String}
    (h : f.initial_comment = some c) (h2 : findIdToken c.data = some d) :
    scanFile s f = insertId d s := by
  unfold scanFile
  rw [h]
  show (match findIdToken c.data with
    | some d2 => insertId d2 s
    | none => s) = insertId d s
  rw [h2]

theorem scanMsg_of_text_none {s : List String} {m : Msg}
    (h : findIdToken m.text.data = none) :
    scanMsg s m = m.files.foldl scanFile s := by
  unfold scanMsg
  show m.files.foldl scanFile (match findIdToken m.text.data with
    | some d => insertId d s
    | none => s) = _
  rw [h]

theorem scanMsg_of_text_found {s : List String} {m : Msg} {d : String}
    (h : findIdToken m.text.data = some d) :
    scanMsg s m = m.files.foldl scanFile (insertId d s) := by
  unfold scanMsg
  show m.files.foldl scanFile (match findIdToken m.text.data with
    | some d2 => insertId d2 s
    | none => s) = _
  rw [h]

theorem scanFile_mono {x : String} {s : List String} (f : SlackFile) (h : x ∈ s) :
    x ∈ scanFile s f := by
  rcases hic : f.initial_comment with _ | c
  · rw [scanFile_of_none hic]; exact h
  · rcases hf2 : findIdToken c.data with _ | d
    · rw [scanFile_of_clean hic hf2]; exact h
    · rw [scanFile_of_found hic hf2]; exact mem_insertId_mono h d

theorem foldl_scanFile_mono (files : List SlackFile) :
    ∀ (s : List String) (x : String), x ∈ s → x ∈ files.foldl scanFile s := by
  induction files with
  | nil => intro s x h; exact h
  | cons f rest ih =>
    intro s x h
    exact ih (scanFile s f) x (scanFile_mono f h)

theorem scanMsg_mono {x : String} {s : List String} (m : Msg) (h : x ∈ s) :
    x ∈ scanMsg s m := by
  rcases ht : findIdToken m.text.data with _ | d
  · rw [scanMsg_of_text_none ht]
    exact foldl_scanFile_mono m.files s x h
  · rw [scanMsg_of_text_found ht]
    exact foldl_scanFile_mono m.files _ x (mem_insertId_mono h d)

theorem foldl_scanMsg_mono (msgs : List Msg) :
    ∀ (s : List String) (x : String), x ∈ s → x ∈ msgs.foldl scanMsg s := by
  induction msgs with
  | nil => intro s x h; exact h
  | cons m rest ih =>
    intro s x h
    exact ih (scanMsg s m) x (scanMsg_mono m h)

theorem foldl_scanFile_adds (files : List SlackFile) :
    ∀ (s : List String) {f : SlackFile} {c d : String}, f ∈ files →
      f.initial_comment = some c → findIdToken c.data = some d →
      d ∈ files.foldl scanFile s := by
  induction files with
  | nil => intro s f c d hf; cases hf
  | cons f0 rest ih =>
    intro s f c d hf hc hfind
    rcases (by simpa using hf : f = f0 ∨ f ∈ rest) with rfl | hf2
    · rw [List.foldl_cons]
      refine foldl_scanFile_mono rest _ d ?_
      rw [scanFile_of_found hc hfind]
      exact mem_insertId_self d s
    · rw [List.foldl_cons]
      exact ih _ hf2 hc hfind

theorem scanMsg_adds {m : Msg} {d : String} (s : List String)
    (hex : findIdToken m.text.data = some d ∨
      ∃ f ∈ m.files, ∃ c, f.initial_comment = some c ∧ findIdToken c.data = some d) :
    d ∈ scanMsg s m := by
  rcases hex with ht | ⟨f, hf, c, hc, hfind⟩
  · rw [scanMsg_of_text_found ht]
    exact foldl_scanFile_mono m.files _ d (mem_insertId_self d s)
  · rcases ht2 : findIdToken m.text.data with _ | d2
    · rw [scanMsg_of_text_none ht2]
      exact foldl_scanFile_adds m.files s hf hc hfind
    · rw [scanMsg_of_text_found ht2]
      exact foldl_scanFile_adds m.files _ hf hc hfind

theorem foldl_scanMsg_adds (msgs : List Msg) :
    ∀ (s : List String) {m : Msg} {d : String}, m ∈ msgs →
      (findIdToken m.text.data = some d ∨
        ∃ f ∈ m.files, ∃ c, f.initial_comment = some c ∧ findIdToken c.data = some d) →
      d ∈ msgs.foldl scanMsg s := by
  induction msgs with
  | nil => intro s m d hm; cases hm
  | cons m0 rest ih =>
    intro s m d hm hex
    rcases (by simpa using hm : m = m0 ∨ m ∈ rest) with rfl | hm2
    · exact foldl_scanMsg_mono rest _ d (scanMsg_adds s hex)
    · exact ih _ hm2 hex

theorem fetch_seen_mem {history : List Msg} {m : Msg} {d : String}
    (hm : m ∈ history.take 100)
    (hex : findIdToken m.text.data = some d ∨
      ∃ f ∈ m.files, ∃ c, f.initial_comment = some c ∧ findIdToken c.data = some d) :
    d ∈ fetch_seen_ids_from_slack history :=
  foldl_scanMsg_adds (history.take 100) [] hm hex

theorem foldl_scanFile_clean (files : List SlackFile) :
    ∀ (s : List String),
      (∀ f ∈ files, ∀ c, f.initial_comment = some c → findIdToken c.data = none) →
      files.foldl scanFile s = s := by
  induction files with
  | nil => intro s _; rfl
  | cons f0 rest ih =>
    intro s hall
    rw [List.foldl_cons]
    have h0 : scanFile s f0 = s := by
      rcases hic : f0.initial_comment with _ | c
      · exact scanFile_of_none hic
      · exact scanFile_of_clean hic (hall f0 (by simp) c hic)
    rw [h0]
    exact ih s (fun f hmem c hc => hall f (by simp [hmem]) c hc)

theorem scanMsg_clean {s : List String} {m : Msg}
    (ht : findIdToken m.text.data = none)
    (hf : ∀ f ∈ m.files, ∀ c, f.initial_comment = some c → findIdToken c.data = none) :
    scanMsg s m = s := by
  rw [scanMsg_of_text_none ht]
  exact foldl_scanFile_clean m.files s hf

theorem fetch_seen_empty {history : List Msg}
    (h : ∀ m ∈ history.take 100, findIdToken m.text.data = none ∧
      ∀ f ∈ m.files, ∀ c, f.initial_comment = some c → findIdToken c.data = none) :
    fetch_seen_ids_from_slack history = [] := by
  unfold fetch_seen_ids_from_slack
  have : ∀ (msgs : List Msg), (∀ m ∈ msgs, findIdToken m.text.data = none ∧
      ∀ f ∈ m.files, ∀ c, f.initial_comment = some c → findIdToken c.data = none) →
      msgs.foldl scanMsg [] = [] := by
    intro msgs
    induction msgs with
    | nil => intro _; rfl
    | cons m0 rest ih =>
      intro hall
      rw [List.foldl_cons, scanMsg_clean (hall m0 (by simp)).1 (hall m0 (by simp)).2]
      exact ih (fun m hm => hall m (by simp [hm]))
  exact this _ h

/-- C2 counterexample: a scanned message whose text contains the literal
token `(ID: 2)` — but as its second token.  `pattern.search` yields only
the first match per message, so the seen set is just `{"1"}` and the
record with id 2 is posted again, contradicting the claim that any record
whose id appears in the scanned window is never posted. -/
theorem C2_counterexample :
    hasSubL "(ID: 2)".data "(ID: 1) (ID: 2)".data = true ∧
    fetch_seen_ids_from_slack [⟨"(ID: 1) (ID: 2)", []⟩] = ["1"] ∧
    process_timeline [⟨"(ID: 1) (ID: 2)", []⟩] (fun _ => false) (fun _ => 0)
      [⟨"2", none, none, none, none, none, some "topics", none, none, none, none, []⟩] =
      [SlackAction.post (topicsMessage ⟨"2", none, none, none, none, none, some "topics",
        none, none, none, none, []⟩)] :=
  ⟨by decide, by decide, by decide⟩

/-- C2 (amended): a record whose id is recovered by the first-match regex
extraction from some message (text or file comment) within the scanned
100-message window is never posted; when the scanned window yields no
extraction at all, the seen set is empty and a record whose token lies
only beyond the window is posted again (shown for a topics record without
attachment, which posts exactly its text message). -/
theorem C2_dedup (history : List Msg) (dlc : String → Bool) (pdfPages : String → Nat)
    (it : Item) (m : Msg) :
    (m ∈ history.take 100 →
      (findIdToken m.text.data = some it.id ∨
        ∃ f ∈ m.files, ∃ c, f.initial_comment = some c ∧
          findIdToken c.data = some it.id) →
      itemEmit (fetch_seen_ids_from_slack history) dlc pdfPages it = []) ∧
    ((∀ m2 ∈ history.take 100, findIdToken m2.text.data = none ∧
        ∀ f ∈ m2.files, ∀ c, f.initial_comment = some c → findIdToken c.data = none) →
      fetch_seen_ids_from_slack history = [] ∧
      (it.timeline_kind = some "topics" → truthyS it.file_url = false →
        itemEmit (fetch_seen_ids_from_slack history) dlc pdfPages it =
          [SlackAction.post (topicsMessage it)])) := by
  constructor
  · intro hm hex
    have hmem : (fetch_seen_ids_from_slack history).contains it.id = true :=
      List.elem_iff.mpr (fetch_seen_mem hm hex)
    unfold itemEmit
    rw [if_pos hmem]
  · intro hclean
    have hempty : fetch_seen_ids_from_slack history = [] := fetch_seen_empty hclean
    refine ⟨hempty, ?_⟩
    intro hkind hfile
    rw [hempty]
    unfold itemEmit
    rw [if_neg (by simp), if_neg (by simp [hkind]), if_neg (by simp [hkind]),
      if_pos (by simp [hkind])]
    unfold topicsActions
    rcases hfu : it.file_url with _ | u
    · rfl
    · have hfile2 : (!(u == "")) = false := by rw [hfu] at hfile; exact hfile
      have hu0 : (u == "") = true := by
        cases hb : u == "" with
        | false => rw [hb] at hfile2; cases hfile2
        | true => rfl
      show (if (u == "") = true then [SlackAction.post (topicsMessage it)] else _) = _
      rw [if_pos hu0]

/-- C2 witness: the amended dedup theorem at a concrete history and
record: the in-window token suppresses the post, and with a clean window
the same topics record is posted. -/
theorem C2_dedup_witness :
    (⟨"x (ID: 5) y", []⟩ ∈ ([⟨"x (ID: 5) y", []⟩] : List Msg).take 100 →
      (findIdToken (Msg.text ⟨"x (ID: 5) y", []⟩).data = some "5" ∨
        ∃ f ∈ (Msg.files ⟨"x (ID: 5) y", []⟩), ∃ c, f.initial_comment = some c ∧
          findIdToken c.data = some "5") →
      itemEmit (fetch_seen_ids_from_slack [⟨"x (ID: 5) y", []⟩]) (fun _ => false)
        (fun _ => 0) ⟨"5", none, none, none, none, none, some "topics", none, none,
          none, none, []⟩ = []) ∧
    ((∀ m2 ∈ ([⟨"x (ID: 5) y", []⟩] : List Msg).take 100,
        findIdToken m2.text.data = none ∧
        ∀ f ∈ m2.files, ∀ c, f.initial_comment = some c → findIdToken c.data = none) →
      fetch_seen_ids_from_slack [⟨"x (ID: 5) y", []⟩] = [] ∧
      ((Item.timeline_kind ⟨"5", none, none, none, none, none, some "topics", none,
          none, none, none, []⟩) = some "topics" →
        truthyS (Item.file_url ⟨"5", none, none, none, none, none, some "topics", none,
          none, none, none, []⟩) = false →
        itemEmit (fetch_seen_ids_from_slack [⟨"x (ID: 5) y", []⟩]) (fun _ => false)
          (fun _ => 0) ⟨"5", none, none, none, none, none, some "topics", none, none,
            none, none, []⟩ =
          [SlackAction.post (topicsMessage ⟨"5", none, none, none, none, none,
            some "topics", none, none, none, none, []⟩)])) :=
  C2_dedup [⟨"x (ID: 5) y", []⟩] (fun _ => false) (fun _ => 0)
    ⟨"5", none, none, none, none, none, some "topics", none, none, none, none, []⟩
    ⟨"x (ID: 5) y", []⟩

/-! ### C3: page ceiling and loop detection -/

theorem walkAux_none {fetch : Nat → Option (List Item)} {args : Args}
    {dl : String → DlResult} {sname : String} {fuel page : Nat} {seen : List String}
    {fs : FS} {tr : List Ev} (h : fetch page = none) :
    walkAux fetch args dl sname (fuel + 1) page seen fs tr =
      ⟨fs, 1, StopReason.noData, tr⟩ := by
  unfold walkAux
  rw [h]

theorem walkAux_nil {fetch : Nat → Option (List Item)} {args : Args}
    {dl : String → DlResult} {sname : String} {fuel page : Nat} {seen : List String}
    {fs : FS} {tr : List Ev} (h : fetch page = some []) :
    walkAux fetch args dl sname (fuel + 1) page seen fs tr =
      ⟨fs, 1, StopReason.noData, tr⟩ := by
  unfold walkAux
  rw [h]

theorem walkAux_early {fetch : Nat → Option (List Item)} {args : Args}
    {dl : String → DlResult} {sname : String} {fuel page : Nat} {seen : List String}
    {fs fs2 : FS} {tr tr2 : List Ev} {it : Item} {items : List Item}
    (h : fetch page = some (it :: items))
    (hp : processItems args dl sname (it :: items) fs seen 0 tr =
      PageOutcome.early fs2 tr2) :
    walkAux fetch args dl sname (fuel + 1) page seen fs tr =
      ⟨fs2, 1, StopReason.doneReached, tr2⟩ := by
  unfold walkAux
  simp only [h, hp]

theorem walkAux_completed {fetch : Nat → Option (List Item)} {args : Args}
    {dl : String → DlResult} {sname : String} {fuel page : Nat}
    {seen seen2 : List String} {fs fs2 : FS} {tr tr2 : List Ev}
    {it : Item} {items : List Item} {cnt : Nat}
    (h : fetch page = some (it :: items))
    (hp : processItems args dl sname (it :: items) fs seen 0 tr =
      PageOutcome.completed fs2 seen2 cnt tr2) :
    walkAux fetch args dl sname (fuel + 1) page seen fs tr =
      (if cnt = 0 then (⟨fs2, 1, StopReason.loopDetected, tr2⟩ : WalkResult)
       else
        ⟨(walkAux fetch args dl sname fuel (page + 1) seen2 fs2 tr2).fs,
         (walkAux fetch args dl sname fuel (page + 1) seen2 fs2 tr2).fetches + 1,
         (walkAux fetch args dl sname fuel (page + 1) seen2 fs2 tr2).reason,
         (walkAux fetch args dl sname fuel (page + 1) seen2 fs2 tr2).tr⟩) := by
  conv_lhs => rw [walkAux]
  simp only [h, hp]

theorem walkAux_fetches_le (fetch : Nat → Option (List Item)) (args : Args)
    (dl : String → DlResult) (sname : String) :
    ∀ (fuel page : Nat) (seen : List String) (fs : FS) (tr : List Ev),
      (walkAux fetch args dl sname fuel page seen fs tr).fetches ≤ fuel := by
  intro fuel
  induction fuel with
  | zero => intro page seen fs tr; exact Nat.le_refl 0
  | succ n ih =>
    intro page seen fs tr
    rcases hf : fetch page with _ | items
    · rw [walkAux_none hf]; exact Nat.le_add_left 1 n
    · rcases items with _ | ⟨it, rest⟩
      · rw [walkAux_nil hf]; exact Nat.le_add_left 1 n
      · rcases hp : processItems args dl sname (it :: rest) fs seen 0 tr with
          ⟨fs2, tr2⟩ | ⟨fs2, seen2, cnt, tr2⟩
        · rw [walkAux_early hf hp]; exact Nat.le_add_left 1 n
        · rw [walkAux_completed hf hp]
          by_cases hc : cnt = 0
          · rw [if_pos hc]; exact Nat.le_add_left 1 n
          · rw [if_neg hc]
            exact Nat.succ_le_succ (ih (page + 1) seen2 fs2 tr2)

theorem processItems_all_seen (args : Args) (dl : String → DlResult) (sname : String) :
    ∀ (items : List Item) (fs : FS) (seen : List String) (cnt : Nat) (tr : List Ev),
      (∀ i ∈ items, seen.contains i.id = true) →
      (∃ fs2 tr2, processItems args dl sname items fs seen cnt tr =
        PageOutcome.early fs2 tr2) ∨
      (∃ fs2 tr2, processItems args dl sname items fs seen cnt tr =
        PageOutcome.completed fs2 seen cnt tr2) := by
  intro items
  induction items with
  | nil => intro fs seen cnt tr _; exact Or.inr ⟨fs, tr, rfl⟩
  | cons it rest ih =>
    intro fs seen cnt tr hall
    unfold processItems
    rw [if_pos (hall it (by simp))]
    rcases hone : processOneItem args dl sname fs it with _ | p
    · simp only [hone]
      exact Or.inl ⟨fs, tr, rfl⟩
    · rcases p with ⟨fs2, evs⟩
      simp only [hone]
      exact ih fs2 seen cnt (tr ++ evs) (fun i hi => hall i (by simp [hi]))

theorem processItems_no_early (args : Args) (dl : String → DlResult) (sname : String)
    (hmode : args.full_scan = true ∨ args.force = true) :
    ∀ (items : List Item) (fs : FS) (seen : List String) (cnt : Nat) (tr : List Ev),
      (∀ i ∈ items, seen.contains i.id = true) →
      ∃ fs2 tr2, processItems args dl sname items fs seen cnt tr =
        PageOutcome.completed fs2 seen cnt tr2 := by
  intro items
  induction items with
  | nil => intro fs seen cnt tr _; exact ⟨fs, tr, rfl⟩
  | cons it rest ih =>
    intro fs seen cnt tr hall
    unfold processItems
    rw [if_pos (hall it (by simp))]
    rcases hone : processOneItem args dl sname fs it with _ | p
    · exfalso
      have := (processOneItem_none_iff args dl sname fs it).mp hone
      rcases hmode with hm | hm
      · rw [this.2.2.1] at hm; cases hm
      · rw [this.2.2.2] at hm; cases hm
    · rcases p with ⟨fs2, evs⟩
      simp only [hone]
      exact ih fs2 seen cnt (tr ++ evs) (fun i hi => hall i (by simp [hi]))

/-- C3 counterexample: in incremental mode the same non-empty page
delivered twice makes the walk stop at page 2, but through the resume
`return` on the `done` marker written at page 1 (an info-level stop,
`StopReason.doneReached`), not through the loop-detection warning
(`StopReason.loopDetected`) the claim requires; the two warning-flagged
stops of the code are `maxPages` and `loopDetected`. -/
theorem C3_counterexample :
    (fun _ : Nat => some [(⟨"1", some "2024-03-05", none, none, none, none,
        some "topics", none, none, none, none, []⟩ : Item)]) 2 =
      (fun _ : Nat => some [(⟨"1", some "2024-03-05", none, none, none, none,
        some "topics", none, none, none, none, []⟩ : Item)]) 1 ∧
    (processServiceWalk (fun _ => some [⟨"1", some "2024-03-05", none, none, none, none,
        some "topics", none, none, none, none, []⟩]) ⟨false, true, false⟩
        (fun _ => DlResult.ok) "S" ⟨[], []⟩).fetches = 2 ∧
    (processServiceWalk (fun _ => some [⟨"1", some "2024-03-05", none, none, none, none,
        some "topics", none, none, none, none, []⟩]) ⟨false, true, false⟩
        (fun _ => DlResult.ok) "S" ⟨[], []⟩).reason = StopReason.doneReached ∧
    StopReason.doneReached ≠ StopReason.loopDetected ∧
    StopReason.doneReached ≠ StopReason.maxPages :=
  ⟨rfl, by decide, by decide, by decide, by decide⟩

/-- C3 (amended): the walk fetches at most `MAX_PAGES = 3000` pages; a
fetched non-empty page all of whose record ids are already in the
run-scoped seen-set is the last page fetched, the stop being either the
loop-detection warning or the earlier resume `return` on a `done` marker;
under `--full-scan` or `--force` (where the resume `return` is disabled)
such a page always stops the walk with the loop-detection warning. -/
theorem C3_termination (fetch : Nat → Option (List Item)) (args : Args)
    (dl : String → DlResult) (sname : String) (fs0 : FS)
    (fuel page : Nat) (seen : List String) (fs : FS) (tr : List Ev)
    (items : List Item) :
    (processServiceWalk fetch args dl sname fs0).fetches ≤ MAX_PAGES ∧
    (fetch page = some items → items ≠ [] →
      (∀ i ∈ items, seen.contains i.id = true) →
      (walkAux fetch args dl sname (fuel + 1) page seen fs tr).fetches = 1 ∧
      ((walkAux fetch args dl sname (fuel + 1) page seen fs tr).reason =
          StopReason.loopDetected ∨
       (walkAux fetch args dl sname (fuel + 1) page seen fs tr).reason =
          StopReason.doneReached)) ∧
    ((args.full_scan = true ∨ args.force = true) → fetch page = some items →
      items ≠ [] → (∀ i ∈ items, seen.contains i.id = true) →
      (walkAux fetch args dl sname (fuel + 1) page seen fs tr).reason =
        StopReason.loopDetected) := by
  refine ⟨walkAux_fetches_le fetch args dl sname MAX_PAGES 1 [] fs0 [], ?_, ?_⟩
  · intro hf hne hall
    rcases items with _ | ⟨it, rest⟩
    · exact absurd rfl hne
    · rcases processItems_all_seen args dl sname (it :: rest) fs seen 0 tr hall with
        ⟨fs2, tr2, hp⟩ | ⟨fs2, tr2, hp⟩
      · rw [walkAux_early hf hp]
        exact ⟨rfl, Or.inr rfl⟩
      · rw [walkAux_completed hf hp, if_pos rfl]
        exact ⟨rfl, Or.inl rfl⟩
  · intro hmode hf hne hall
    rcases items with _ | ⟨it, rest⟩
    · exact absurd rfl hne
    · obtain ⟨fs2, tr2, hp⟩ :=
        processItems_no_early args dl sname hmode (it :: rest) fs seen 0 tr hall
      rw [walkAux_completed hf hp, if_pos rfl]

/-- C3 witness: the termination theorem applied to the repeated-page fetch
under full-scan: page 2 is all-seen, is the last fetch, and stops with the
loop warning. -/
theorem C3_termination_witness :
    (processServiceWalk (fun _ => some [⟨"1", some "2024-03-05", none, none, none, none,
        some "topics", none, none, none, none, []⟩]) ⟨true, true, false⟩
        (fun _ => DlResult.ok) "S" ⟨[], []⟩).fetches ≤ MAX_PAGES ∧
    ((fun _ : Nat => some [(⟨"1", some "2024-03-05", none, none, none, none,
        some "topics", none, none, none, none, []⟩ : Item)]) 2 =
        some [⟨"1", some "2024-03-05", none, none, none, none,
          some "topics", none, none, none, none, []⟩] →
      [(⟨"1", some "2024-03-05", none, none, none, none,
          some "topics", none, none, none, none, []⟩ : Item)] ≠ [] →
      (∀ i ∈ [(⟨"1", some "2024-03-05", none, none, none, none,
          some "topics", none, none, none, none, []⟩ : Item)],
        (["1"] : List String).contains i.id = true) →
      (walkAux (fun _ => some [⟨"1", some "2024-03-05", none, none, none, none,
          some "topics", none, none, none, none, []⟩]) ⟨true, true, false⟩
          (fun _ => DlResult.ok) "S" (MAX_PAGES - 1 + 1) 2 ["1"]
          ⟨[], []⟩ []).fetches = 1 ∧
      ((walkAux (fun _ => some [⟨"1", some "2024-03-05", none, none, none, none,
          some "topics", none, none, none, none, []⟩]) ⟨true, true, false⟩
          (fun _ => DlResult.ok) "S" (MAX_PAGES - 1 + 1) 2 ["1"]
          ⟨[], []⟩ []).reason = StopReason.loopDetected ∨
       (walkAux (fun _ => some [⟨"1", some "2024-03-05", none, none, none, none,
          some "topics", none, none, none, none, []⟩]) ⟨true, true, false⟩
          (fun _ => DlResult.ok) "S" (MAX_PAGES - 1 + 1) 2 ["1"]
          ⟨[], []⟩ []).reason = StopReason.doneReached)) ∧
    (((⟨true, true, false⟩ : Args).full_scan = true ∨
        (⟨true, true, false⟩ : Args).force = true) →
      (fun _ : Nat => some [(⟨"1", some "2024-03-05", none, none, none, none,
        some "topics", none, none, none, none, []⟩ : Item)]) 2 =
        some [⟨"1", some "2024-03-05", none, none, none, none,
          some "topics", none, none, none, none, []⟩] →
      [(⟨"1", some "2024-03-05", none, none, none, none,
          some "topics", none, none, none, none, []⟩ : Item)] ≠ [] →
      (∀ i ∈ [(⟨"1", some "2024-03-05", none, none, none, none,
          some "topics", none, none, none, none, []⟩ : Item)],
        (["1"] : List String).contains i.id = true) →
      (walkAux (fun _ => some [⟨"1", some "2024-03-05", none, none, none, none,
          some "topics", none, none, none, none, []⟩]) ⟨true, true, false⟩
          (fun _ => DlResult.ok) "S" (MAX_PAGES - 1 + 1) 2 ["1"]
          ⟨[], []⟩ []).reason = StopReason.loopDetected) :=
  C3_termination (fun _ => some [⟨"1", some "2024-03-05", none, none, none, none,
      some "topics", none, none, none, none, []⟩]) ⟨true, true, false⟩
    (fun _ => DlResult.ok) "S" ⟨[], []⟩ (MAX_PAGES - 1) 2 ["1"] ⟨[], []⟩ []
    [⟨"1", some "2024-03-05", none, none, none, none, some "topics", none, none,
      none, none, []⟩]

/-! ### C1: resume correctness of the incremental walk -/

theorem FS.touchF_dirs (fs : FS) (p : String) : (fs.touchF p).dirs = fs.dirs := by
  unfold FS.touchF
  split <;> rfl

theorem FS.hasDirB_touchF (fs : FS) (p q : String) :
    (fs.touchF p).hasDirB q = fs.hasDirB q := by
  unfold FS.hasDirB
  rw [FS.touchF_dirs]

theorem FS.hasDirB_writeF (fs : FS) (p : String) (sz : Nat) (q : String) :
    (fs.writeF p sz).hasDirB q = fs.hasDirB q := rfl

theorem FS.hasDirB_mkdirp_mono (fs : FS) (d q : String) (h : fs.hasDirB q = true) :
    (fs.mkdirp d).hasDirB q = true := by
  unfold FS.mkdirp
  split
  · exact h
  · unfold FS.hasDirB at h ⊢
    simp only [List.contains_cons]
    simp only [Bool.or_eq_true]
    exact Or.inr h

theorem download_file_dirs (dl : String → DlResult) (force : Bool) (fs : FS)
    (url sp : String) : (download_file dl force fs url sp).1.dirs = fs.dirs := by
  unfold download_file
  split
  · rfl
  · split <;> rfl

theorem downloadPhotos_dirs (dl : String → DlResult) (force : Bool) (dir : String) :
    ∀ (phs : List Photo) (fs : FS), (downloadPhotos dl force dir phs fs).1.dirs = fs.dirs := by
  intro phs
  induction phs with
  | nil => intro fs; rfl
  | cons ph rest ih =>
    intro fs
    unfold downloadPhotos
    rw [ih, download_file_dirs]

theorem processAssets_dirs (args : Args) (dl : String → DlResult) (dir : String)
    (it : Item) (fs : FS) : (processAssets args dl dir it fs).1.dirs = fs.dirs := by
  unfold processAssets
  rcases hu : it.file_url with _ | u <;> simp only [hu]
  · rw [downloadPhotos_dirs]
  · by_cases he0 : (u == "") = true
    · rw [if_pos he0, downloadPhotos_dirs]
    · rw [if_neg he0]
      rw [downloadPhotos_dirs, download_file_dirs]

theorem FS.hasFileB_touchF_cases {fs : FS} {p q : String}
    (h : (fs.touchF p).hasFileB q = true) : fs.hasFileB q = true ∨ q = p := by
  unfold FS.touchF at h
  split at h
  · exact Or.inl h
  · simp only [FS.hasFileB, List.any_cons, Bool.or_eq_true, beq_iff_eq] at h
    rcases h with h1 | h1
    · exact Or.inr h1.symm
    · exact Or.inl (by simp [FS.hasFileB, h1])

theorem FS.hasFileB_writeF_cases {fs : FS} {p q : String} {sz : Nat}
    (h : (fs.writeF p sz).hasFileB q = true) : fs.hasFileB q = true ∨ q = p := by
  simp only [FS.writeF, FS.hasFileB, List.any_cons, Bool.or_eq_true, beq_iff_eq] at h
  rcases h with h1 | h1
  · exact Or.inr h1.symm
  · exact Or.inl (by simp [FS.hasFileB, h1])

theorem download_file_hasFileB_cases {dl : String → DlResult} {force : Bool} {fs : FS}
    {url sp q : String} (h : (download_file dl force fs url sp).1.hasFileB q = true) :
    fs.hasFileB q = true ∨ q = sp := by
  unfold download_file at h
  split at h
  · exact Or.inl h
  · split at h
    · exact FS.hasFileB_writeF_cases h
    · exact Or.inl h
    · exact Or.inl h

theorem downloadPhotos_hasFileB_cases {dl : String → DlResult} {force : Bool}
    {dir : String} :
    ∀ {phs : List Photo} {fs : FS} {q : String},
      (downloadPhotos dl force dir phs fs).1.hasFileB q = true →
      fs.hasFileB q = true ∨ ∃ ph ∈ phs, q = dir ++ "/" ++ photoName ph := by
  intro phs
  induction phs with
  | nil => intro fs q h; exact Or.inl h
  | cons ph rest ih =>
    intro fs q h
    unfold downloadPhotos at h
    rcases ih h with h1 | ⟨ph2, hmem, hq⟩
    · rcases download_file_hasFileB_cases h1 with h2 | h2
      · exact Or.inl h2
      · exact Or.inr ⟨ph, by simp, h2⟩
    · exact Or.inr ⟨ph2, by simp [hmem], hq⟩

theorem photo_target_mem {dir : String} {it : Item} {ph : Photo}
    (hmem : ph ∈ it.photos) :
    dir ++ "/" ++ photoName ph ∈ (attachmentTargets dir it).map Prod.snd := by
  unfold attachmentTargets
  rw [List.map_append, List.map_map]
  exact List.mem_append_right _ (List.mem_map_of_mem _ hmem)

theorem attach_target_mem {dir : String} {it : Item} {u : String}
    (hu : it.file_url = some u) (he0 : ¬ (u == "") = true) :
    dir ++ "/" ++ attachmentName u ∈ (attachmentTargets dir it).map Prod.snd := by
  unfold attachmentTargets
  simp only [hu]
  rw [if_neg he0, List.map_append]
  exact List.mem_append_left _ (by simp)

theorem processAssets_hasFileB_cases {args : Args} {dl : String → DlResult}
    {dir : String} {it : Item} {fs : FS} {q : String}
    (h : (processAssets args dl dir it fs).1.hasFileB q = true) :
    fs.hasFileB q = true ∨ q ∈ (attachmentTargets dir it).map Prod.snd := by
  unfold processAssets at h
  rcases hu : it.file_url with _ | u <;> simp only [hu] at h
  · rcases downloadPhotos_hasFileB_cases h with h1 | ⟨ph, hmem, hq⟩
    · exact Or.inl h1
    · refine Or.inr ?_
      rw [hq]
      exact photo_target_mem hmem
  · by_cases he0 : (u == "") = true
    · rw [if_pos he0] at h
      rcases downloadPhotos_hasFileB_cases h with h1 | ⟨ph, hmem, hq⟩
      · exact Or.inl h1
      · refine Or.inr ?_
        rw [hq]
        exact photo_target_mem hmem
    · rw [if_neg he0] at h
      rcases downloadPhotos_hasFileB_cases h with h1 | ⟨ph, hmem, hq⟩
      · rcases download_file_hasFileB_cases h1 with h2 | h2
        · exact Or.inl h2
        · refine Or.inr ?_
          rw [h2]
          exact attach_target_mem hu he0
      · refine Or.inr ?_
        rw [hq]
        exact photo_target_mem hmem

theorem processOneItem_mono {args : Args} {dl : String → DlResult} {sname : String}
    {fs : FS} {it : Item} {fs2 : FS} {tr : List Ev}
    (h : processOneItem args dl sname fs it = some (fs2, tr)) :
    (∀ q, fs.hasFileB q = true → fs2.hasFileB q = true) ∧
    (∀ q, fs.hasDirB q = true → fs2.hasDirB q = true) := by
  unfold processOneItem at h
  by_cases hc : (fs.hasDirB (itemDirPath sname it) &&
      fs.hasFileB (itemDirPath sname it ++ "/done") &&
      !args.full_scan && !args.force) = true
  · rw [if_pos hc] at h; cases h
  · rw [if_neg hc] at h
    dsimp only at h
    rw [Option.some_inj, Prod.mk.injEq] at h
    obtain ⟨hfs, -⟩ := h
    rw [← hfs]
    constructor
    · intro q hq
      apply FS.hasFileB_touchF_mono
      have hq1 : ∀ b : Bool,
          ((if b = true then
            ((FS.mkdirp fs (itemDirPath sname it)).writeF
              (itemDirPath sname it ++ "/info.json") 1,
              [Ev.writeInfo (itemDirPath sname it)])
          else (FS.mkdirp fs (itemDirPath sname it), ([] : List Ev))).1).hasFileB q =
            true := by
        intro b
        cases b
        · rw [if_neg (by simp)]
          rw [FS.hasFileB_mkdirp]
          exact hq
        · rw [if_pos rfl]
          exact FS.hasFileB_writeF_mono _ _ _ _ (by rw [FS.hasFileB_mkdirp]; exact hq)
      by_cases hna : args.no_assets = true
      · rw [if_pos hna]
        exact hq1 _
      · rw [if_neg hna]
        exact processAssets_hasFileB_mono _ _ _ _ _ _ (hq1 _)
    · intro q hq
      rw [FS.hasDirB_touchF]
      have hq1 : ∀ b : Bool,
          ((if b = true then
            ((FS.mkdirp fs (itemDirPath sname it)).writeF
              (itemDirPath sname it ++ "/info.json") 1,
              [Ev.writeInfo (itemDirPath sname it)])
          else (FS.mkdirp fs (itemDirPath sname it), ([] : List Ev))).1).hasDirB q =
            true := by
        intro b
        cases b
        · rw [if_neg (by simp)]
          exact FS.hasDirB_mkdirp_mono fs _ q hq
        · rw [if_pos rfl]
          rw [FS.hasDirB_writeF]
          exact FS.hasDirB_mkdirp_mono fs _ q hq
      by_cases hna : args.no_assets = true
      · rw [if_pos hna]
        exact hq1 _
      · rw [if_neg hna]
        unfold FS.hasDirB
        rw [processAssets_dirs]
        exact hq1 _

theorem processOneItem_writes {args : Args} {dl : String → DlResult} {sname : String}
    {fs : FS} {it : Item} {fs2 : FS} {tr : List Ev}
    (h : processOneItem args dl sname fs it = some (fs2, tr)) (q : String)
    (hq : fs2.hasFileB q = true) :
    fs.hasFileB q = true ∨ q ∈ itemWritePaths (itemDirPath sname it) it := by
  unfold processOneItem at h
  by_cases hc : (fs.hasDirB (itemDirPath sname it) &&
      fs.hasFileB (itemDirPath sname it ++ "/done") &&
      !args.full_scan && !args.force) = true
  · rw [if_pos hc] at h; cases h
  · rw [if_neg hc] at h
    dsimp only at h
    rw [Option.some_inj, Prod.mk.injEq] at h
    obtain ⟨hfs, -⟩ := h
    rw [← hfs] at hq
    rcases FS.hasFileB_touchF_cases hq with hq2 | hq2
    · have hs2 : ∀ (x : FS × List Ev),
          (x = ((FS.mkdirp fs (itemDirPath sname it)).writeF
              (itemDirPath sname it ++ "/info.json") 1,
              [Ev.writeInfo (itemDirPath sname it)]) ∨
           x = (FS.mkdirp fs (itemDirPath sname it), ([] : List Ev))) →
          x.1.hasFileB q = true →
          fs.hasFileB q = true ∨ q ∈ itemWritePaths (itemDirPath sname it) it := by
        intro x hx hxq
        rcases hx with rfl | rfl
        · rcases FS.hasFileB_writeF_cases hxq with h3 | h3
          · rw [FS.hasFileB_mkdirp] at h3
            exact Or.inl h3
          · exact Or.inr (by rw [h3]; simp [itemWritePaths])
        · rw [FS.hasFileB_mkdirp] at hxq
          exact Or.inl hxq
      by_cases hna : args.no_assets = true
      · rw [if_pos hna] at hq2
        by_cases hwr : (args.force || !(FS.mkdirp fs (itemDirPath sname it)).hasFileB
            (itemDirPath sname it ++ "/info.json")) = true
        · rw [if_pos hwr] at hq2
          exact hs2 _ (Or.inl rfl) hq2
        · rw [if_neg hwr] at hq2
          exact hs2 _ (Or.inr rfl) hq2
      · rw [if_neg hna] at hq2
        rcases processAssets_hasFileB_cases hq2 with hq3 | hq3
        · by_cases hwr : (args.force || !(FS.mkdirp fs (itemDirPath sname it)).hasFileB
              (itemDirPath sname it ++ "/info.json")) = true
          · rw [if_pos hwr] at hq3
            exact hs2 _ (Or.inl rfl) hq3
          · rw [if_neg hwr] at hq3
            exact hs2 _ (Or.inr rfl) hq3
        · exact Or.inr (by simp [itemWritePaths, hq3])
    · exact Or.inr (by rw [hq2]; simp [itemWritePaths])

theorem evTouchDir_eq_none {e : Ev} (h : ∀ q, e ≠ Ev.touchDone q) : evTouchDir e = none := by
  cases e with
  | touchDone d => exact absurd rfl (h d)
  | mkdirp d => rfl
  | writeInfo d => rfl
  | dlWrite p => rfl
  | dlSkip p => rfl
  | dlFail p => rfl

theorem processOneItem_touchDirs {args : Args} {dl : String → DlResult} {sname : String}
    {fs : FS} {it : Item} {fs2 : FS} {tr : List Ev}
    (h : processOneItem args dl sname fs it = some (fs2, tr)) :
    tr.filterMap evTouchDir = [itemDirPath sname it] := by
  obtain ⟨pfx, hpx, hno⟩ := processOneItem_trace args dl sname fs it fs2 tr h
  rw [hpx, List.filterMap_append]
  have h1 : pfx.filterMap evTouchDir = [] := by
    rw [List.filterMap_eq_nil_iff]
    intro e he
    exact evTouchDir_eq_none (hno e he)
  rw [h1]
  rfl

theorem scontains_false_iff {l : List String} {x : String} :
    l.contains x = false ↔ x ∉ l := by
  constructor
  · intro h hm
    have h2 : l.contains x = true := List.elem_iff.mpr hm
    rw [h] at h2
    cases h2
  · intro hm
    cases hc : l.contains x
    · rfl
    · exact absurd (List.elem_iff.mp hc) hm

theorem processItems_new_page (args : Args) (dl : String → DlResult) (sname : String) :
    ∀ (pg : List Item) (fs : FS) (seen : List String) (cnt : Nat) (tr : List Ev),
      (∀ a ∈ pg, fs.hasFileB (itemDirPath sname a ++ "/done") = false) →
      (∀ a ∈ pg, seen.contains a.id = false) →
      (pg.map Item.id).Nodup →
      List.Pairwise (fun a b => SepItems sname b a) pg →
      ∃ fs2 tr2,
        processItems args dl sname pg fs seen cnt tr =
          PageOutcome.completed fs2 ((pg.map Item.id).reverse ++ seen)
            (cnt + pg.length) tr2 ∧
        tr2.filterMap evTouchDir =
          tr.filterMap evTouchDir ++ pg.map (itemDirPath sname) ∧
        (∀ q, fs.hasFileB q = true → fs2.hasFileB q = true) ∧
        (∀ q, fs.hasDirB q = true → fs2.hasDirB q = true) ∧
        (∀ q, fs2.hasFileB q = true → fs.hasFileB q = true ∨
          ∃ a ∈ pg, q ∈ itemWritePaths (itemDirPath sname a) a) := by
  intro pg
  induction pg with
  | nil =>
    intro fs seen cnt tr _ _ _ _
    exact ⟨fs, tr, by simp [processItems], by simp,
      fun q h => h, fun q h => h, fun q h => Or.inl h⟩
  | cons it rest ih =>
    intro fs seen cnt tr hdone hseen hnd hpw
    have hdone_it : fs.hasFileB (itemDirPath sname it ++ "/done") = false :=
      hdone it (by simp)
    rcases hone : processOneItem args dl sname fs it with _ | p
    · exfalso
      have hx := (processOneItem_none_iff args dl sname fs it).mp hone
      rw [hx.2.1] at hdone_it
      cases hdone_it
    · rcases p with ⟨fs1, evs⟩
      have hsu : seen.contains it.id = false := hseen it (by simp)
      obtain ⟨hmono_f, hmono_d⟩ := processOneItem_mono hone
      have hnd' : (rest.map Item.id).Nodup := (List.nodup_cons.mp hnd).2
      have hid_not : it.id ∉ rest.map Item.id := (List.nodup_cons.mp hnd).1
      have hpw' : List.Pairwise (fun a b => SepItems sname b a) rest :=
        (List.pairwise_cons.mp hpw).2
      have hsep_hd : ∀ b ∈ rest, SepItems sname b it := (List.pairwise_cons.mp hpw).1
      have hdone' : ∀ a ∈ rest, fs1.hasFileB (itemDirPath sname a ++ "/done") = false := by
        intro a ha
        cases hb : fs1.hasFileB (itemDirPath sname a ++ "/done")
        · rfl
        · exfalso
          rcases processOneItem_writes hone _ hb with hin | hin
          · rw [hdone a (by simp [ha])] at hin
            cases hin
          · exact hsep_hd a ha hin
      have hseen' : ∀ a ∈ rest, (it.id :: seen).contains a.id = false := by
        intro a ha
        rw [scontains_false_iff]
        intro hmem
        rcases List.mem_cons.mp hmem with he | he
        · exact hid_not (he ▸ List.mem_map_of_mem Item.id ha)
        · exact (scontains_false_iff.mp (hseen a (by simp [ha]))) he
      obtain ⟨fs2, tr2, hpi, htr, hmf, hmd, hprov⟩ :=
        ih fs1 (it.id :: seen) (cnt + 1) (tr ++ evs) hdone' hseen' hnd' hpw'
      refine ⟨fs2, tr2, ?_, ?_, ?_, ?_, ?_⟩
      · unfold processItems
        rw [if_neg (by rw [hsu]; exact Bool.false_ne_true)]
        simp only [hone]
        rw [hpi]
        have hs2 : (rest.map Item.id).reverse ++ (it.id :: seen) =
            ((it :: rest).map Item.id).reverse ++ seen := by
          simp
        have hc2 : cnt + 1 + rest.length = cnt + (it :: rest).length := by
          simp only [List.length_cons]
          omega
        rw [hs2, hc2]
      · rw [htr, List.filterMap_append, processOneItem_touchDirs hone]
        simp
      · exact fun q h => hmf q (hmono_f q h)
      · exact fun q h => hmd q (hmono_d q h)
      · intro q hq
        rcases hprov q hq with h1 | ⟨a, ha, hin⟩
        · rcases processOneItem_writes hone q h1 with h2 | h2
          · exact Or.inl h2
          · exact Or.inr ⟨it, by simp, h2⟩
        · exact Or.inr ⟨a, by simp [ha], hin⟩

theorem processItems_hits_done (args : Args) (dl : String → DlResult) (sname : String)
    (hfsu : args.full_scan = false) (hfo : args.force = false) (d : Item)
    (suff : List Item) :
    ∀ (pref : List Item) (fs : FS) (seen : List String) (cnt : Nat) (tr : List Ev),
      (∀ a ∈ pref, fs.hasFileB (itemDirPath sname a ++ "/done") = false) →
      List.Pairwise (fun a b => SepItems sname b a) pref →
      fs.hasDirB (itemDirPath sname d) = true →
      fs.hasFileB (itemDirPath sname d ++ "/done") = true →
      ∃ fs2 tr2,
        processItems args dl sname (pref ++ d :: suff) fs seen cnt tr =
          PageOutcome.early fs2 tr2 ∧
        tr2.filterMap evTouchDir =
          tr.filterMap evTouchDir ++ pref.map (itemDirPath sname) := by
  intro pref
  induction pref with
  | nil =>
    intro fs seen cnt tr _ _ hdir hdone
    have hone : processOneItem args dl sname fs d = none :=
      (processOneItem_none_iff args dl sname fs d).mpr ⟨hdir, hdone, hfsu, hfo⟩
    refine ⟨fs, tr, ?_, by simp⟩
    rw [List.nil_append]
    unfold processItems
    simp only [hone]
  | cons a rest ih =>
    intro fs seen cnt tr habs hpw hdir hdone
    have habs_a : fs.hasFileB (itemDirPath sname a ++ "/done") = false :=
      habs a (by simp)
    rcases hone : processOneItem args dl sname fs a with _ | p
    · exfalso
      have hx := (processOneItem_none_iff args dl sname fs a).mp hone
      rw [hx.2.1] at habs_a
      cases habs_a
    · rcases p with ⟨fs1, evs⟩
      obtain ⟨hmono_f, hmono_d⟩ := processOneItem_mono hone
      have hsep_hd : ∀ b ∈ rest, SepItems sname b a := (List.pairwise_cons.mp hpw).1
      have habs' : ∀ b ∈ rest, fs1.hasFileB (itemDirPath sname b ++ "/done") = false := by
        intro b hb
        cases hb2 : fs1.hasFileB (itemDirPath sname b ++ "/done")
        · rfl
        · exfalso
          rcases processOneItem_writes hone _ hb2 with h1 | h1
          · rw [habs b (by simp [hb])] at h1
            cases h1
          · exact hsep_hd b hb h1
      obtain ⟨fs2, tr2, hpi, htr⟩ :=
        ih fs1
          (if seen.contains a.id = true then (seen, cnt) else (a.id :: seen, cnt + 1)).1
          (if seen.contains a.id = true then (seen, cnt) else (a.id :: seen, cnt + 1)).2
          (tr ++ evs) habs' (List.pairwise_cons.mp hpw).2 (hmono_d _ hdir) (hmono_f _ hdone)
      refine ⟨fs2, tr2, ?_, ?_⟩
      · rw [List.cons_append]
        unfold processItems
        simp only [hone]
        exact hpi
      · rw [htr, List.filterMap_append, processOneItem_touchDirs hone]
        simp

theorem walk_resume_core (fetch : Nat → Option (List Item)) (args : Args)
    (dl : String → DlResult) (sname : String)
    (hfsu : args.full_scan = false) (hfo : args.force = false) (d : Item) :
    ∀ (pages : List (List Item)) (fuel : Nat) (newRem after : List Item)
      (page : Nat) (seen : List String) (fs : FS) (tr : List Ev),
      (∀ k, fetch (page + k) = pages.get? k) →
      pages.flatten = newRem ++ d :: after →
      (∀ pg ∈ pages, pg ≠ []) →
      pages.length ≤ fuel →
      (∀ a ∈ newRem, fs.hasFileB (itemDirPath sname a ++ "/done") = false) →
      (∀ a ∈ newRem, seen.contains a.id = false) →
      (newRem.map Item.id).Nodup →
      List.Pairwise (fun a b => SepItems sname b a) (newRem ++ [d]) →
      fs.hasDirB (itemDirPath sname d) = true →
      fs.hasFileB (itemDirPath sname d ++ "/done") = true →
      ∃ fsf trf,
        walkAux fetch args dl sname fuel page seen fs tr =
          ⟨fsf, pagesBefore pages newRem.length + 1, StopReason.doneReached, trf⟩ ∧
        trf.filterMap evTouchDir =
          tr.filterMap evTouchDir ++ newRem.map (itemDirPath sname) := by
  intro pages
  induction pages with
  | nil =>
    intro fuel newRem after page seen fs tr _ hflat _ _ _ _ _ _ _ _
    have hlen0 := congrArg List.length hflat
    simp only [List.flatten_nil, List.length_nil, List.length_append,
      List.length_cons] at hlen0
    exact absurd hlen0 (by omega)
  | cons pg rest ih =>
    intro fuel newRem after page seen fs tr hfetch hflat hne hfuel habs hseen hnd hpw
      hdir hdone
    rcases fuel with _ | fuel'
    · exact absurd hfuel (by simp)
    have hfpg : fetch page = some pg := by
      have h0 := hfetch 0
      rw [Nat.add_zero] at h0
      exact h0
    obtain ⟨it0, its, hpg⟩ : ∃ x xs, pg = x :: xs := by
      cases hc : pg with
      | nil => exact absurd rfl (hc ▸ hne pg (by simp))
      | cons x xs => exact ⟨x, xs, rfl⟩
    subst hpg
    rw [List.flatten_cons] at hflat
    have hfetch' : ∀ k, fetch (page + 1 + k) = rest.get? k := by
      intro k
      have h1 := hfetch (k + 1)
      rw [show page + (k + 1) = page + 1 + k by omega] at h1
      exact h1
    have hne' : ∀ pg' ∈ rest, pg' ≠ [] := fun pg' h => hne pg' (by simp [h])
    have hfuel' : rest.length ≤ fuel' := by
      simp only [List.length_cons] at hfuel
      omega
    by_cases hsplit : (it0 :: its).length ≤ newRem.length
    · -- this page consists of new records only
      have hdecomp : ∃ a', newRem = (it0 :: its) ++ a' ∧
          rest.flatten = a' ++ d :: after := by
        rcases List.append_eq_append_iff.mp hflat with ⟨a', ha1, ha2⟩ | ⟨c', hc1, hc2⟩
        · exact ⟨a', ha1, ha2⟩
        · have hlc := congrArg List.length hc1
          simp only [List.length_append] at hlc
          have hcl : c' = [] := List.length_eq_zero.mp (by omega)
          subst hcl
          exact ⟨[], by simpa using hc1.symm, by simpa using hc2.symm⟩
      obtain ⟨newRem', hnr, hrf⟩ := hdecomp
      subst hnr
      rw [List.map_append] at hnd
      obtain ⟨hnd1, hnd2, hdisj⟩ := List.nodup_append.mp hnd
      rw [List.append_assoc] at hpw
      obtain ⟨hpw1, hpw2, hcross⟩ := List.pairwise_append.mp hpw
      obtain ⟨fs2, tr2, hpi, htr2, hmf, hmd, hprov⟩ :=
        processItems_new_page args dl sname (it0 :: its) fs seen 0 tr
          (fun a ha => habs a (List.mem_append_left _ ha))
          (fun a ha => hseen a (List.mem_append_left _ ha))
          hnd1 hpw1
      have habs' : ∀ a ∈ newRem',
          fs2.hasFileB (itemDirPath sname a ++ "/done") = false := by
        intro a ha
        cases hb : fs2.hasFileB (itemDirPath sname a ++ "/done")
        · rfl
        · exfalso
          rcases hprov _ hb with h1 | ⟨x, hx, hxin⟩
          · rw [habs a (List.mem_append_right _ ha)] at h1
            cases h1
          · exact hcross x hx a (List.mem_append_left _ ha) hxin
      have hseen' : ∀ a ∈ newRem',
          (((it0 :: its).map Item.id).reverse ++ seen).contains a.id = false := by
        intro a ha
        rw [scontains_false_iff]
        intro hmem
        rcases List.mem_append.mp hmem with h1 | h1
        · rw [List.mem_reverse] at h1
          exact hdisj h1 (List.mem_map_of_mem Item.id ha)
        · exact (scontains_false_iff.mp (hseen a (List.mem_append_right _ ha))) h1
      obtain ⟨fsf, trf, hwk, htrf⟩ :=
        ih fuel' newRem' after (page + 1) (((it0 :: its).map Item.id).reverse ++ seen)
          fs2 tr2 hfetch' hrf hne' hfuel' habs' hseen' hnd2 hpw2
          (hmd _ hdir) (hmf _ hdone)
      have hpb : pagesBefore ((it0 :: its) :: rest) ((it0 :: its) ++ newRem').length =
          pagesBefore rest newRem'.length + 1 := by
        have hsub : ((it0 :: its) ++ newRem').length - (it0 :: its).length =
            newRem'.length := by
          simp [List.length_append]
        conv_lhs => rw [pagesBefore]
        rw [if_pos (by simp), hsub]
      refine ⟨fsf, trf, ?_, ?_⟩
      · rw [walkAux_completed hfpg hpi, if_neg (by simp), hwk, hpb]
      · rw [htrf, htr2]
        simp
    · -- the first already-done record lies inside this page
      have hdecomp : ∃ tl, it0 :: its = newRem ++ d :: tl := by
        rcases List.append_eq_append_iff.mp hflat with ⟨a', ha1, ha2⟩ | ⟨c', hc1, hc2⟩
        · exfalso
          apply hsplit
          rw [ha1]
          simp
        · rcases c' with _ | ⟨x, xs⟩
          · exfalso
            apply hsplit
            rw [hc1]
            simp
          · rw [List.cons_append] at hc2
            injection hc2 with h1 h2
            exact ⟨xs, by rw [hc1, h1]⟩
      obtain ⟨tl, hpgd⟩ := hdecomp
      obtain ⟨fs2, tr2, hpi, htr2⟩ :=
        processItems_hits_done args dl sname hfsu hfo d tl newRem fs seen 0 tr
          habs (List.pairwise_append.mp hpw).1 hdir hdone
      rw [← hpgd] at hpi
      have hpb : pagesBefore ((it0 :: its) :: rest) newRem.length = 0 := by
        conv_lhs => rw [pagesBefore]
        rw [if_neg hsplit]
      refine ⟨fs2, tr2, ?_, htr2⟩
      rw [walkAux_early hfpg hpi, hpb]

/-- C1: Resume correctness of the incremental archive walk.  For every
newest-first vendor page sequence whose flattened record stream consists of
new records (no `done` marker in the sink) followed by an already-archived
record `d` (directory present with its `done` marker), `process_service`
in incremental mode (`full_scan` and `force` both false) stops the
facility's walk with the early resume return (`StopReason.doneReached`) at
the first already-done record, fetches exactly the pages up to and
including the one containing that record (`pagesBefore pages M + 1`, so no
further pages), and the `done`-markers it touches — the records it
archives — are exactly the M new records, in vendor order.  The
non-aliasing hypotheses (`Nodup` ids, `SepItems` pairwise separation of
the archive directories, non-empty pages within the 3000-page ceiling)
express that distinct real records live in distinct archive
directories. -/
theorem C1_resume (args : Args) (dl : String → DlResult) (sname : String)
    (fetch : Nat → Option (List Item)) (pages : List (List Item))
    (newItems after : List Item) (d : Item) (fs : FS)
    (hincr : args.full_scan = false) (hforce : args.force = false)
    (hfetch : ∀ k, fetch (1 + k) = pages.get? k)
    (hflat : pages.flatten = newItems ++ d :: after)
    (hne : ∀ pg ∈ pages, pg ≠ [])
    (hlen : pages.length ≤ MAX_PAGES)
    (hnew : ∀ a ∈ newItems, fs.hasFileB (itemDirPath sname a ++ "/done") = false)
    (hnd : (newItems.map Item.id).Nodup)
    (hsep : List.Pairwise (fun a b => SepItems sname b a) (newItems ++ [d]))
    (hdir : fs.hasDirB (itemDirPath sname d) = true)
    (hdone : fs.hasFileB (itemDirPath sname d ++ "/done") = true) :
    ∃ fsf trf,
      processServiceWalk fetch args dl sname fs =
        ⟨fsf, pagesBefore pages newItems.length + 1, StopReason.doneReached, trf⟩ ∧
      trf.filterMap evTouchDir = newItems.map (itemDirPath sname) := by
  obtain ⟨fsf, trf, hwk, htr⟩ :=
    walk_resume_core fetch args dl sname hincr hforce d pages MAX_PAGES newItems after
      1 [] fs [] hfetch hflat hne hlen hnew (fun a _ => rfl) hnd hsep hdir hdone
  exact ⟨fsf, trf, hwk, by simpa using htr⟩

/-- Witness for the C1 resume theorem at a concrete two-page scenario:
page 1 holds one new record, page 2 the already-archived one; the walk
fetches both pages, stops on the `done` marker, and touches exactly the
new record's marker. -/
theorem C1_resume_witness :
    ∃ fsf trf,
      processServiceWalk (fun p => [[sampleNewItem], [sampleDoneItem]].get? (p - 1))
        ⟨false, true, false⟩ (fun _ => DlResult.ok) "svc" sampleFS =
        ⟨fsf, 2, StopReason.doneReached, trf⟩ ∧
      trf.filterMap evTouchDir = [itemDirPath "svc" sampleNewItem] := by
  obtain ⟨fsf, trf, hwk, htr⟩ :=
    C1_resume ⟨false, true, false⟩ (fun _ => DlResult.ok) "svc"
      (fun p => [[sampleNewItem], [sampleDoneItem]].get? (p - 1))
      [[sampleNewItem], [sampleDoneItem]] [sampleNewItem] [] sampleDoneItem sampleFS
      rfl rfl (fun k => by simp) rfl (by decide) (by decide)
      (by decide) (by decide)
      (by
        refine List.Pairwise.cons ?_ (List.Pairwise.cons (by simp) List.Pairwise.nil)
        intro b hb
        rcases List.mem_singleton.mp hb with rfl
        unfold SepItems
        decide)
      (by decide) (by decide)
  exact ⟨fsf, trf, hwk, htr⟩

end Codmon
